import Mathlib

/-!
ISO-TP PDU decoding: `isotp/protocol.go` and `can/can.go`.

A shallow embedding of the PDU decoder.  A Go method on `*PDU` that mutates its
receiver and returns `error` becomes a function from the PDU before the call to
the PDU after it together with the returned error (`none` for `nil`).  A run-time
panic (nil pointer, index or slice bound) is the `Except.error` branch, so a
result `Except.ok` says that the call returned.

Bytes are natural numbers, `int` and `time.Duration` values are integers (no
value computed here comes near the 64-bit range).

Package `bits` is not part of the sources: every function that calls
`bits.GetNybble` takes it as the parameter `nyb`, with `[0]` and `[1]` of its
result written `.1` and `.2`.  `parseFFLength` has no body in the sources:
`getFFDL` takes it as the parameter `parse`.  `InitContinuationFrame`, which `Init`
calls, is defined in no source file and is modelled from the specification.
-/

namespace can

/-- Message describes a CAN message construct (`can/can.go`). -/
structure Message where
  ID : Nat
  DLC : Nat
  Payload : List Nat
  IsExtended : Bool
  IsFD : Bool
deriving DecidableEq

end can

namespace isotp

/-- Run-time panics the decoder can raise. -/
inductive Panic where
  | nilDereference
  | indexOutOfRange
  | sliceBoundsOutOfRange
deriving DecidableEq

/-- PDU, the ISO-TP frame record.  `Type_` is the Go field `Type`; `SepTime` is a
`time.Duration`, a count of nanoseconds; `Raw` is the pointer `*can.Message`. -/
structure PDU where
  Type_ : Int
  Flag : Int
  Length : Int
  Data : List Nat
  Raw : Option can.Message
  Index : Int
  BlockSize : Int
  SepTime : Int
deriving DecidableEq

/-- SF = Single Frame type. -/
def SF : Int := 0
/-- FF = First Frame type. -/
def FF : Int := 1
/-- CF = Continuation Frame type. -/
def CF : Int := 2
/-- FC = Flow Control type. -/
def FC : Int := 3

/-- Continue to send, flow control flag. -/
def Continue : Int := 0
/-- Wait, flow control flag. -/
def Wait : Int := 1
/-- Overflow / abort indicator, flow control flag. -/
def Overflow : Int := 2

/-- Go's `time.Millisecond`, in nanoseconds. -/
def Millisecond : Int := 1000000
/-- Go's `time.Microsecond`, in nanoseconds. -/
def Microsecond : Int := 1000

/-- Reading through the pointer `f.Raw`. -/
def deref (r : Option can.Message) : Except Panic can.Message :=
  match r with
  | some m => .ok m
  | none => .error .nilDereference

/-- The index expression `p[i]`. -/
def index (p : List Nat) (i : Nat) : Except Panic Nat :=
  match p.get? i with
  | some b => .ok b
  | none => .error .indexOutOfRange

/-- The slice expression `p[off:]`. -/
def sliceFrom (p : List Nat) (off : Int) : Except Panic (List Nat) :=
  if 0 ≤ off ∧ off ≤ (p.length : Int) then .ok (p.drop off.toNat)
  else .error .sliceBoundsOutOfRange

/-- Modelled from the spec: `bits.GetNybble`, of the package `bits` that is not
among the sources.  Section 4.1: the two 4-bit nibbles of a byte, high nibble
first, `(b >> 4, b & 0xF)`. -/
def GetNybble (b : Nat) : Nat × Nat := (b >>> 4, b &&& 0xF)

/-- GetType, lines 24-32: classify on `bits.GetNybble(f.Raw.Payload[0])[1]`. -/
def GetType (nyb : Nat → Nat × Nat) (f : PDU) :
    Except Panic (PDU × Int × Option String) := do
  let m ← deref f.Raw
  let b0 ← index m.Payload 0
  let typeInt := (nyb b0).2
  if typeInt < 0 ∨ typeInt > 3 then
    pure ({ f with Type_ := -1 }, -1, some "Invalid ISOTP type")
  else
    pure ({ f with Type_ := (typeInt : Int) }, (typeInt : Int), none)

/-- GetFlag, lines 184-192: the flow control flag is
`bits.GetNybble(f.Raw.Payload[0])[0]`. -/
def GetFlag (nyb : Nat → Nat × Nat) (f : PDU) :
    Except Panic (PDU × Int × Option String) := do
  let m ← deref f.Raw
  let b0 ← index m.Payload 0
  let flagInt := (nyb b0).1
  if flagInt < 0 ∨ flagInt > 2 then
    pure ({ f with Flag := -1 }, -1, some "Invalid Flow Control Flag")
  else
    pure ({ f with Flag := (flagInt : Int) }, (flagInt : Int), none)

/-- GetSTMin, lines 171-181: the separation time from `f.Raw.Payload[2]`. -/
def GetSTMin (f : PDU) : Except Panic (PDU × Int × Option String) := do
  let m ← deref f.Raw
  let b2 ← index m.Payload 2
  let stInt : Int := (b2 : Int)
  if stInt ≥ 0 ∧ stInt ≤ 0x7F then
    pure ({ f with SepTime := stInt * Millisecond }, stInt * Millisecond, none)
  else if stInt ≥ 0xf1 ∧ stInt ≤ 0xF9 then
    pure ({ f with SepTime := ((stInt - 0xF0) * 100) * Microsecond },
      ((stInt - 0xF0) * 100) * Microsecond, none)
  else
    pure (f, 0, some "Invalid ST Min value")

/-- The method getSFDL, lines 120-146.  The block of the non-zero nibble (lines 122-130)
has no return on its success path, so control reaches line 131 whatever the
nibble is. -/
def getSFDL (nyb : Nat → Nat × Nat) (f : PDU) : Except Panic (PDU × Option String) := do
  let m ← deref f.Raw
  let b0 ← index m.Payload 0
  let upN := (nyb b0).1
  let f1 : PDU := if upN ≠ 0 then { f with Length := (upN : Int) } else f
  if upN ≠ 0 ∧ (f1.Length > 7 ∨ f1.Length > (m.Payload.length : Int) - 1) then
    pure (f1, some "invalid SF Data Length")
  else if upN ≠ 0 ∧ (f1.Length = 7 ∧ m.IsExtended = true) then
    pure (f1, some "invalid length for extended frame")
  else if m.Payload.length < 2 then
    pure (f1, some "PDU length is longer than the data provided")
  else do
    let upN ← index m.Payload 1
    let f2 : PDU := { f1 with Length := (upN : Int) }
    if upN < 6 then
      pure (f2, some "invalid extended FF length")
    else if upN = 7 ∧ m.IsExtended = false then
      pure (f2, some "invalid length for non-extended frame")
    else if (upN : Int) > (m.Payload.length : Int) - 2 then
      pure (f2, some "invalid SF Data Length")
    else
      pure (f2, none)

/-- InitSingleFrame, lines 101-118.  `b` is the optional payload argument
(`none` when the call has no argument). -/
def InitSingleFrame (nyb : Nat → Nat × Nat) (f : PDU) (b : Option (List Nat)) :
    Except Panic (PDU × Option String) := do
  let (f, err) ← (match b with
    | some b0 => do
        let m ← deref f.Raw
        let (f, _, err) ← GetType nyb { f with Raw := some { m with Payload := b0 } }
        pure (f, err)
    | none => pure (f, none))
  match err with
  | some e => pure (f, some e)
  | none => do
    let (f, err) ← getSFDL nyb f
    match err with
    | some e => pure (f, some e)
    | none => do
      let m ← deref f.Raw
      let fl : Int := (m.Payload.length : Int)
      let off := fl - f.Length
      let d ← sliceFrom m.Payload off
      pure ({ f with Data := d }, none)

/-- Modelled from the spec: the body of `parseFFLength`, which the sources leave
empty after `n := bits.GetNybble(b[0])`.  Section 4.4: bytes 0-1 hold a 12-bit
length, the length nibble of byte 0 being its high 4 bits and byte 1 its low 8
bits; when that field is zero the length is the 32-bit big-endian value of
bytes 2-5.  "Low nibble" is the section's word: by section 4.1 the pair is high
nibble first, so it is index 1 of the pair `n`. -/
def parseFFLength (nyb : Nat → Nat × Nat) (b : List Nat) (_min : Int) :
    Except Panic (Int × Option String) := do
  let b0 ← index b 0
  let n := nyb b0
  let b1 ← index b 1
  if n.2 = 0 ∧ b1 = 0 then do
    let b2 ← index b 2
    let b3 ← index b 3
    let b4 ← index b 4
    let b5 ← index b 5
    pure ((((b2 * 256 + b3) * 256 + b4) * 256 + b5 : Nat), none)
  else
    pure ((n.2 * 256 + b1 : Nat), none)

/-- The method getFFDL, lines 70-91.  The test of line 76 is on the field `f.Length`. -/
def getFFDL (parse : List Nat → Int → Except Panic (Int × Option String)) (f : PDU) :
    Except Panic (Int × Option String) := do
  let m ← deref f.Raw
  let minVal : Int := if m.IsExtended = true then 7 else 8
  let minVal : Int :=
    if f.Length > 8 then
      (if m.IsExtended = true then (m.Payload.length : Int) - 2
       else (m.Payload.length : Int) - 1)
    else minVal
  let (val, err) ← parse m.Payload minVal
  match err with
  | some e => pure (0, some e)
  | none =>
    if val < minVal then pure (0, some "length of first frame is too small")
    else pure (val, none)

/-- InitFirstFrame, lines 53-68: the value `getFFDL` returns is used as the
offset of the data. -/
def InitFirstFrame (nyb : Nat → Nat × Nat)
    (parse : List Nat → Int → Except Panic (Int × Option String))
    (f : PDU) (b : Option (List Nat)) : Except Panic (PDU × Option String) := do
  let (f, err) ← (match b with
    | some b0 => do
        let m ← deref f.Raw
        let (f, _, err) ← GetType nyb { f with Raw := some { m with Payload := b0 } }
        pure (f, err)
    | none => pure (f, none))
  match err with
  | some e => pure (f, some e)
  | none => do
    let (off, err) ← getFFDL parse f
    match err with
    | some e => pure (f, some e)
    | none => do
      let m ← deref f.Raw
      let d ← sliceFrom m.Payload off
      pure ({ f with Data := d }, none)

/-- InitFlowControl, lines 149-168. -/
def InitFlowControl (nyb : Nat → Nat × Nat) (f : PDU) (b : Option (List Nat)) :
    Except Panic (PDU × Option String) := do
  let (f, err) ← (match b with
    | some b0 =>
        if b0.length = 3 then do
          let m ← deref f.Raw
          let (f, _, err) ← GetType nyb { f with Raw := some { m with Payload := b0 } }
          pure (f, err)
        else pure (f, none)
    | none => pure (f, none))
  match err with
  | some e => pure (f, some e)
  | none => do
    let m ← deref f.Raw
    if m.Payload.length ≠ 3 then
      pure (f, some "Invalid Continuation Frame Length")
    else do
      let (f, _, err) ← GetFlag nyb f
      match err with
      | some e => pure (f, some e)
      | none => do
        let b1 ← index m.Payload 1
        let (f, _, err) ← GetSTMin { f with BlockSize := (b1 : Int) }
        pure (f, err)

/-- Modelled from the spec: `InitContinuationFrame`, which `Init` calls and the
sources do not define.  Section 4.5: the sequence index is the low nibble of byte 0
(by section 4.1 the pair is high nibble first, so it is index 1 of the pair), the
data slice is `payload[1:]`, and there is no failure of its own. -/
def InitContinuationFrame (nyb : Nat → Nat × Nat) (f : PDU) :
    Except Panic (PDU × Option String) := do
  let m ← deref f.Raw
  let b0 ← index m.Payload 0
  let d ← sliceFrom m.Payload 1
  pure ({ f with Index := ((nyb b0).2 : Int), Data := d }, none)

/-- Init, lines 35-50: classify, then run the parser of the type found. -/
def Init (nyb : Nat → Nat × Nat)
    (parse : List Nat → Int → Except Panic (Int × Option String))
    (f : PDU) (m : can.Message) : Except Panic (PDU × Option String) := do
  let (f, _, err) ← GetType nyb { f with Raw := some m }
  if f.Type_ = FC then InitFlowControl nyb f none
  else if f.Type_ = CF then InitContinuationFrame nyb f
  else if f.Type_ = FF then InitFirstFrame nyb parse f none
  else if f.Type_ = SF then InitSingleFrame nyb f none
  else pure (f, err)

/-- A PDU record with every field zero and `Raw` pointing at `m`. -/
def pduOf (m : can.Message) : PDU :=
  { Type_ := 0, Flag := 0, Length := 0, Data := [], Raw := some m,
    Index := 0, BlockSize := 0, SepTime := 0 }

/-- A standard-addressing classic CAN message carrying `p`. -/
def stdMsg (p : List Nat) : can.Message :=
  { ID := 0x7E0, DLC := p.length, Payload := p, IsExtended := false, IsFD := false }

/-- An extended-addressing classic CAN message carrying `p`. -/
def extMsg (p : List Nat) : can.Message :=
  { ID := 0x18DA00F1, DLC := p.length, Payload := p, IsExtended := true, IsFD := false }

/-- A standard-addressing CAN FD message carrying `p`. -/
def fdMsg (p : List Nat) : can.Message :=
  { ID := 0x7E0, DLC := p.length, Payload := p, IsExtended := false, IsFD := true }

/-- The checks of lines 122-130 of `getSFDL` on the nibble `n` let control through:
either the block is skipped or none of its tests fires. -/
def shortFormPasses (n : Nat) (m : can.Message) : Prop :=
  n = 0 ∨ (n ≤ 7 ∧ (n : Int) ≤ (m.Payload.length : Int) - 1 ∧ ¬ (n = 7 ∧ m.IsExtended = true))

/-- The error, if any, of lines 136-145 of `getSFDL` on the byte `v` read at index 1. -/
def escapeError (v : Nat) (m : can.Message) : Option String :=
  if v < 6 then some "invalid extended FF length"
  else if v = 7 ∧ m.IsExtended = false then some "invalid length for non-extended frame"
  else if (v : Int) > (m.Payload.length : Int) - 2 then some "invalid SF Data Length"
  else none

/-- The bound `minVal` that lines 72-82 of `getFFDL` compute. -/
def ffMinVal (f : PDU) (m : can.Message) : Int :=
  if f.Length > 8 then
    (if m.IsExtended = true then (m.Payload.length : Int) - 2
     else (m.Payload.length : Int) - 1)
  else (if m.IsExtended = true then 7 else 8)

/-- The 12-byte First Frame used below, in the byte layout of sections 4.2 and 4.4:
high nibble 1 (the First Frame code) and low nibble 0 in byte 0, byte 1 = 10, so the
12-bit length field is 10; then 10 data bytes. -/
def ff12 : List Nat := [0x10, 0x0A, 1, 2, 3, 4, 5, 6, 7, 8, 9, 10]

/-- A fresh PDU record, Go's zero value of the struct: every field zero and `Raw` nil. -/
def freshPDU : PDU :=
  { Type_ := 0, Flag := 0, Length := 0, Data := [], Raw := none,
    Index := 0, BlockSize := 0, SepTime := 0 }

/-- The separation time `GetSTMin` decodes from the byte `v`, if it decodes one. -/
def sepTimeOf (v : Nat) : Option Int :=
  if v ≤ 0x7F then some ((v : Int) * Millisecond)
  else if 0xF1 ≤ v ∧ v ≤ 0xF9 then some ((((v : Int) - 0xF0) * 100) * Microsecond)
  else none

/-- The error of lines 124-129 of `getSFDL` when one of their tests fires on the nibble `n`. -/
def shortFormError (n : Nat) (m : can.Message) : String :=
  if 7 < n ∨ (m.Payload.length : Int) - 1 < (n : Int) then "invalid SF Data Length"
  else "invalid length for extended frame"

/-! ## Theorems -/

/-- C1: on a PDU whose message has a non-empty payload, `GetType` is decided by the
type nibble `bits.GetNybble(payload[0])[1]` alone: 0, 1, 2 and 3 return `SF`,
`FF`, `CF` and `FC` with no error and store the returned value in `Type`; every
value from 4 up returns an error (and stores the sentinel -1). -/
theorem GetType_total (nyb : Nat → Nat × Nat) (f : PDU) (m : can.Message)
    (b0 : Nat) (rest : List Nat) (hraw : f.Raw = some m) (hp : m.Payload = b0 :: rest) :
    ((nyb b0).2 = 0 → GetType nyb f = .ok ({ f with Type_ := SF }, SF, none)) ∧
    ((nyb b0).2 = 1 → GetType nyb f = .ok ({ f with Type_ := FF }, FF, none)) ∧
    ((nyb b0).2 = 2 → GetType nyb f = .ok ({ f with Type_ := CF }, CF, none)) ∧
    ((nyb b0).2 = 3 → GetType nyb f = .ok ({ f with Type_ := FC }, FC, none)) ∧
    (4 ≤ (nyb b0).2 →
      GetType nyb f = .ok ({ f with Type_ := -1 }, -1, some "Invalid ISOTP type")) := by
  refine ⟨?_, ?_, ?_, ?_, ?_⟩ <;> intro h <;>
    simp [GetType, deref, index, hraw, hp, bind, Except.bind, pure, Except.pure, h,
      SF, FF, CF, FC]
  omega

/-- C1 at concrete bytes, with `bits.GetNybble` as section 4.1 of the spec gives it:
type nibbles 0, 3 and 4. -/
theorem GetType_total_witness :
    GetType GetNybble (pduOf (stdMsg [0x20, 0x2A])) =
      .ok ({ pduOf (stdMsg [0x20, 0x2A]) with Type_ := SF }, SF, none) ∧
    GetType GetNybble (pduOf (stdMsg [0x03, 0x00, 0x00])) =
      .ok ({ pduOf (stdMsg [0x03, 0x00, 0x00]) with Type_ := FC }, FC, none) ∧
    GetType GetNybble (pduOf (stdMsg [0x04])) =
      .ok ({ pduOf (stdMsg [0x04]) with Type_ := -1 }, -1, some "Invalid ISOTP type") :=
  ⟨(GetType_total GetNybble (pduOf (stdMsg [0x20, 0x2A])) (stdMsg [0x20, 0x2A])
      0x20 [0x2A] rfl rfl).1 (by decide),
   (GetType_total GetNybble (pduOf (stdMsg [0x03, 0x00, 0x00])) (stdMsg [0x03, 0x00, 0x00])
      0x03 [0x00, 0x00] rfl rfl).2.2.2.1 (by decide),
   (GetType_total GetNybble (pduOf (stdMsg [0x04])) (stdMsg [0x04])
      0x04 [] rfl rfl).2.2.2.2 (by decide)⟩

/-- C4: on a PDU whose payload has at least 3 bytes, `GetSTMin` is decided by byte 2 = v:
for v ≤ 0x7F it returns and stores v milliseconds with no error; for
0xF1 ≤ v ≤ 0xF9 it returns and stores (v - 0xF0) * 100 microseconds with no error;
for every other v (0x80..0xF0, and 0xFA upward) it returns an error, the value 0,
and leaves the record as it was. -/
theorem GetSTMin_ranges (f : PDU) (m : can.Message) (b0 b1 v : Nat) (rest : List Nat)
    (hraw : f.Raw = some m) (hp : m.Payload = b0 :: b1 :: v :: rest) :
    (v ≤ 0x7F → GetSTMin f =
      .ok ({ f with SepTime := (v : Int) * Millisecond }, (v : Int) * Millisecond, none)) ∧
    (0xF1 ≤ v ∧ v ≤ 0xF9 → GetSTMin f =
      .ok ({ f with SepTime := (((v : Int) - 0xF0) * 100) * Microsecond },
        (((v : Int) - 0xF0) * 100) * Microsecond, none)) ∧
    ((0x80 ≤ v ∧ v ≤ 0xF0) ∨ 0xFA ≤ v → GetSTMin f =
      .ok (f, 0, some "Invalid ST Min value")) := by
  refine ⟨?_, ?_, ?_⟩ <;> intro h
  · have h1 : (v : Int) ≤ 127 := by omega
    simp [GetSTMin, deref, index, hraw, hp, bind, Except.bind, pure, Except.pure, h1]
  · have h1 : ¬ (v : Int) ≤ 127 := by omega
    have h2 : (241 : Int) ≤ v ∧ (v : Int) ≤ 249 := by omega
    simp [GetSTMin, deref, index, hraw, hp, bind, Except.bind, pure, Except.pure, h1, h2]
  · have h1 : ¬ (v : Int) ≤ 127 := by omega
    have h2 : ¬ ((241 : Int) ≤ v ∧ (v : Int) ≤ 249) := by omega
    simp [GetSTMin, deref, index, hraw, hp, bind, Except.bind, pure, Except.pure, h1]
    omega

/-- C4 at the boundary bytes: 0x7F is 127 ms, 0xF1 is 100 us, 0xF9 is 900 us, and 0x80
and 0xFA are errors. -/
theorem GetSTMin_ranges_witness :
    GetSTMin (pduOf (stdMsg [0x30, 0x08, 0x7F])) =
      .ok ({ pduOf (stdMsg [0x30, 0x08, 0x7F]) with SepTime := 127 * Millisecond },
        127 * Millisecond, none) ∧
    GetSTMin (pduOf (stdMsg [0x30, 0x08, 0xF1])) =
      .ok ({ pduOf (stdMsg [0x30, 0x08, 0xF1]) with SepTime := 100 * Microsecond },
        100 * Microsecond, none) ∧
    GetSTMin (pduOf (stdMsg [0x30, 0x08, 0xF9])) =
      .ok ({ pduOf (stdMsg [0x30, 0x08, 0xF9]) with SepTime := 900 * Microsecond },
        900 * Microsecond, none) ∧
    GetSTMin (pduOf (stdMsg [0x30, 0x08, 0x80])) =
      .ok (pduOf (stdMsg [0x30, 0x08, 0x80]), 0, some "Invalid ST Min value") ∧
    GetSTMin (pduOf (stdMsg [0x30, 0x08, 0xFA])) =
      .ok (pduOf (stdMsg [0x30, 0x08, 0xFA]), 0, some "Invalid ST Min value") :=
  ⟨(GetSTMin_ranges (pduOf (stdMsg [0x30, 0x08, 0x7F])) (stdMsg [0x30, 0x08, 0x7F])
      0x30 0x08 0x7F [] rfl rfl).1 (by decide),
   (GetSTMin_ranges (pduOf (stdMsg [0x30, 0x08, 0xF1])) (stdMsg [0x30, 0x08, 0xF1])
      0x30 0x08 0xF1 [] rfl rfl).2.1 (by decide),
   (GetSTMin_ranges (pduOf (stdMsg [0x30, 0x08, 0xF9])) (stdMsg [0x30, 0x08, 0xF9])
      0x30 0x08 0xF9 [] rfl rfl).2.1 (by decide),
   (GetSTMin_ranges (pduOf (stdMsg [0x30, 0x08, 0x80])) (stdMsg [0x30, 0x08, 0x80])
      0x30 0x08 0x80 [] rfl rfl).2.2 (by decide),
   (GetSTMin_ranges (pduOf (stdMsg [0x30, 0x08, 0xFA])) (stdMsg [0x30, 0x08, 0xFA])
      0x30 0x08 0xFA [] rfl rfl).2.2 (by decide)⟩

/-- On a 3-byte payload with a flag nibble above 2, `InitFlowControl` stops at `GetFlag`. -/
theorem InitFlowControl_bad_flag (nyb : Nat → Nat × Nat) (f : PDU) (m : can.Message)
    (b0 b1 b2 : Nat) (hraw : f.Raw = some m) (hp : m.Payload = [b0, b1, b2])
    (hn : 2 < (nyb b0).1) :
    InitFlowControl nyb f none =
      .ok ({ f with Flag := -1 }, some "Invalid Flow Control Flag") := by
  simp [InitFlowControl, GetFlag, deref, index, hraw, hp, bind, Except.bind, pure,
    Except.pure, hn]

/-- On a 3-byte payload with a flag nibble of at most 2 and a valid separation-time
byte, `InitFlowControl` returns no error and has stored the flag and the block size. -/
theorem InitFlowControl_good_flag (nyb : Nat → Nat × Nat) (f : PDU) (m : can.Message)
    (b0 b1 b2 : Nat) (hraw : f.Raw = some m) (hp : m.Payload = [b0, b1, b2])
    (hst : b2 ≤ 0x7F ∨ (0xF1 ≤ b2 ∧ b2 ≤ 0xF9)) (hn : (nyb b0).1 ≤ 2) :
    ∃ st : Int, InitFlowControl nyb f none =
      .ok ({ f with Flag := ((nyb b0).1 : Int), BlockSize := (b1 : Int), SepTime := st },
        none) := by
  have hn2 : ¬ 2 < (nyb b0).1 := by omega
  rcases hst with h | h
  · have h1 : (b2 : Int) ≤ 127 := by omega
    exact ⟨(b2 : Int) * Millisecond, by
      simp [InitFlowControl, GetFlag, GetSTMin, deref, index, hraw, hp, bind, Except.bind,
        pure, Except.pure, hn2, h1]⟩
  · have h1 : ¬ (b2 : Int) ≤ 127 := by omega
    have h2 : (241 : Int) ≤ b2 ∧ (b2 : Int) ≤ 249 := by omega
    exact ⟨(((b2 : Int) - 0xF0) * 100) * Microsecond, by
      simp [InitFlowControl, GetFlag, GetSTMin, deref, index, hraw, hp, bind, Except.bind,
        pure, Except.pure, hn2, h1, h2]⟩

/-- C5: on a PDU whose payload has exactly 3 bytes and a valid separation-time byte 2,
`InitFlowControl` without a payload argument returns no error if and only if the
flag nibble `bits.GetNybble(payload[0])[0]` is 0, 1 or 2 (with a larger nibble it
returns the flag error); on success `Flag` is that nibble, one of `Continue`,
`Wait`, `Overflow`, and `BlockSize` is byte 1 as an unsigned value (0..255 for a
byte). -/
theorem InitFlowControl_flag_iff (nyb : Nat → Nat × Nat) (f : PDU) (m : can.Message)
    (b0 b1 b2 : Nat) (hraw : f.Raw = some m) (hp : m.Payload = [b0, b1, b2])
    (hst : b2 ≤ 0x7F ∨ (0xF1 ≤ b2 ∧ b2 ≤ 0xF9)) :
    ((∃ f', InitFlowControl nyb f none = .ok (f', none)) ↔ (nyb b0).1 ≤ 2) ∧
    (2 < (nyb b0).1 → ∃ f' e, InitFlowControl nyb f none = .ok (f', some e)) ∧
    (∀ f', InitFlowControl nyb f none = .ok (f', none) →
      f'.Flag = ((nyb b0).1 : Int) ∧
      (f'.Flag = Continue ∨ f'.Flag = Wait ∨ f'.Flag = Overflow) ∧
      f'.BlockSize = (b1 : Int) ∧ 0 ≤ f'.BlockSize ∧ (b1 < 256 → f'.BlockSize ≤ 255)) := by
  refine ⟨⟨?_, ?_⟩, ?_, ?_⟩
  · rintro ⟨f', hf'⟩
    by_contra hn
    rw [InitFlowControl_bad_flag nyb f m b0 b1 b2 hraw hp (by omega)] at hf'
    simp at hf'
  · intro hn
    obtain ⟨st, h⟩ := InitFlowControl_good_flag nyb f m b0 b1 b2 hraw hp hst hn
    exact ⟨_, h⟩
  · intro hn
    exact ⟨_, _, InitFlowControl_bad_flag nyb f m b0 b1 b2 hraw hp hn⟩
  · intro f' hf'
    by_cases hn : (nyb b0).1 ≤ 2
    · obtain ⟨st, h⟩ := InitFlowControl_good_flag nyb f m b0 b1 b2 hraw hp hst hn
      rw [h] at hf'
      simp only [Except.ok.injEq, Prod.mk.injEq, and_true] at hf'
      subst hf'
      refine ⟨rfl, ?_, rfl, ?_, ?_⟩
      · simp only [Continue, Wait, Overflow]
        omega
      · simp
      · intro hb
        simp only
        omega
    · rw [InitFlowControl_bad_flag nyb f m b0 b1 b2 hraw hp (by omega)] at hf'
      simp at hf'

/-- C5 at concrete bytes: flag nibble 1 (`Wait`), block size 8, separation time 0x7F. -/
theorem InitFlowControl_flag_iff_witness :
    InitFlowControl GetNybble (pduOf (stdMsg [0x13, 0x08, 0x7F])) none =
      .ok ({ pduOf (stdMsg [0x13, 0x08, 0x7F]) with
              Flag := Wait, BlockSize := 8, SepTime := 127 * Millisecond }, none) ∧
    ((∃ f', InitFlowControl GetNybble (pduOf (stdMsg [0x13, 0x08, 0x7F])) none =
        .ok (f', none)) ↔ (GetNybble 0x13).1 ≤ 2) :=
  ⟨rfl, (InitFlowControl_flag_iff GetNybble (pduOf (stdMsg [0x13, 0x08, 0x7F]))
    (stdMsg [0x13, 0x08, 0x7F]) 0x13 0x08 0x7F rfl rfl (by decide)).1⟩

/-- C6: on a PDU whose payload length is not 3, `InitFlowControl` without a payload
argument returns the length error and the record is as before the call, so `Flag`,
`BlockSize` and `SepTime` keep their values. -/
theorem InitFlowControl_length (nyb : Nat → Nat × Nat) (f : PDU) (m : can.Message)
    (hraw : f.Raw = some m) (hlen : m.Payload.length ≠ 3) :
    InitFlowControl nyb f none = .ok (f, some "Invalid Continuation Frame Length") ∧
    ∀ f' e, InitFlowControl nyb f none = .ok (f', e) →
      e ≠ none ∧ f'.Flag = f.Flag ∧ f'.BlockSize = f.BlockSize ∧ f'.SepTime = f.SepTime := by
  have h : InitFlowControl nyb f none =
      .ok (f, some "Invalid Continuation Frame Length") := by
    simp [InitFlowControl, deref, hraw, bind, Except.bind, pure, Except.pure, hlen]
  refine ⟨h, ?_⟩
  intro f' e he
  rw [h] at he
  simp only [Except.ok.injEq, Prod.mk.injEq] at he
  obtain ⟨rfl, rfl⟩ := he
  simp

/-- C6 at concrete payloads of 2, 4 and 0 bytes; the 4-byte one would be a valid flow
control frame but for its length. -/
theorem InitFlowControl_length_witness :
    InitFlowControl GetNybble (pduOf (stdMsg [0x03, 0x08])) none =
      .ok (pduOf (stdMsg [0x03, 0x08]), some "Invalid Continuation Frame Length") ∧
    InitFlowControl GetNybble (pduOf (stdMsg [0x03, 0x08, 0x7F, 0x00])) none =
      .ok (pduOf (stdMsg [0x03, 0x08, 0x7F, 0x00]),
        some "Invalid Continuation Frame Length") ∧
    InitFlowControl GetNybble (pduOf (stdMsg [])) none =
      .ok (pduOf (stdMsg []), some "Invalid Continuation Frame Length") :=
  ⟨(InitFlowControl_length GetNybble (pduOf (stdMsg [0x03, 0x08]))
      (stdMsg [0x03, 0x08]) rfl (by decide)).1,
   (InitFlowControl_length GetNybble (pduOf (stdMsg [0x03, 0x08, 0x7F, 0x00]))
      (stdMsg [0x03, 0x08, 0x7F, 0x00]) rfl (by decide)).1,
   (InitFlowControl_length GetNybble (pduOf (stdMsg [])) (stdMsg []) rfl (by decide)).1⟩

/-- When a test of lines 124-129 fires, `getSFDL` returns its error with `Length` set to
the nibble. -/
theorem getSFDL_short_reject (nyb : Nat → Nat × Nat) (f : PDU) (m : can.Message)
    (b0 : Nat) (rest : List Nat) (hraw : f.Raw = some m) (hp : m.Payload = b0 :: rest)
    (hbad : ¬ shortFormPasses (nyb b0).1 m) :
    ∃ e, getSFDL nyb f = .ok ({ f with Length := ((nyb b0).1 : Int) }, some e) := by
  unfold shortFormPasses at hbad
  push_neg at hbad
  obtain ⟨hn, hb⟩ := hbad
  by_cases h1 : (nyb b0).1 ≤ 7 ∧ (nyb b0).1 ≤ rest.length
  · have h2 : (nyb b0).1 = 7 ∧ m.IsExtended = true :=
      hb h1.1 (by simp only [hp, List.length_cons]; push_cast; omega)
    refine ⟨"invalid length for extended frame", ?_⟩
    simp [getSFDL, deref, index, hraw, hp, bind, Except.bind, pure, Except.pure, h2]
    omega
  · refine ⟨"invalid SF Data Length", ?_⟩
    simp [getSFDL, deref, index, hraw, hp, bind, Except.bind, pure, Except.pure, hn]
    intro a b
    exact absurd ⟨a, b⟩ h1

/-- On a one-byte payload `getSFDL` returns an error. -/
theorem getSFDL_one_byte (nyb : Nat → Nat × Nat) (f : PDU) (m : can.Message)
    (b0 : Nat) (hraw : f.Raw = some m) (hp : m.Payload = [b0]) :
    ∃ f' e, getSFDL nyb f = .ok (f', some e) := by
  by_cases hn : (nyb b0).1 = 0
  · exact ⟨f, "PDU length is longer than the data provided", by
      simp [getSFDL, deref, index, hraw, hp, bind, Except.bind, pure, Except.pure, hn]⟩
  · obtain ⟨e, he⟩ := getSFDL_short_reject nyb f m b0 [] hraw hp (by
      simp only [shortFormPasses, hp, not_or, not_and, not_not]
      refine ⟨hn, ?_⟩
      intro _ h
      simp at h
      omega)
    exact ⟨_, e, he⟩

/-- With two bytes or more and the first block let through, `getSFDL` sets `Length` to
byte 1 and returns what lines 136-145 decide. -/
theorem getSFDL_escape (nyb : Nat → Nat × Nat) (f : PDU) (m : can.Message)
    (b0 v : Nat) (tl : List Nat) (hraw : f.Raw = some m) (hp : m.Payload = b0 :: v :: tl)
    (hpass : shortFormPasses (nyb b0).1 m) :
    getSFDL nyb f = .ok ({ f with Length := (v : Int) }, escapeError v m) := by
  have hlen : m.Payload.length = tl.length + 2 := by simp [hp]
  have c3 : ¬ m.Payload.length < 2 := by omega
  have i1 : index m.Payload 1 = .ok v := by simp [index, hp]
  have i0 : index m.Payload 0 = .ok b0 := by simp [index, hp]
  obtain ⟨ty, fl, len, d, raw, ix, bs, st⟩ := f
  simp only at hraw
  subst hraw
  unfold getSFDL
  simp only [deref, i0, i1, bind, Except.bind, pure, Except.pure, if_neg c3]
  by_cases hn : (nyb b0).1 = 0
  · simp only [hn, ne_eq, not_true_eq_false, false_and, if_false, escapeError]
    split_ifs <;> rfl
  · have h7 : ¬ ((((nyb b0).1 : Nat) : Int) > 7 ∨ (((nyb b0).1 : Nat) : Int) > (m.Payload.length : Int) - 1) := by
      rcases hpass with h0 | ⟨h7, hl, _⟩
      · exact absurd h0 hn
      · omega
    have hx : ¬ ((((nyb b0).1 : Nat) : Int) = 7 ∧ m.IsExtended = true) := by
      rcases hpass with h0 | ⟨h7, hl, hx⟩
      · exact absurd h0 hn
      · rintro ⟨a, b⟩
        exact hx ⟨by omega, b⟩
    simp only [ne_eq, hn, not_false_eq_true, if_true, true_and, h7, hx, if_false, escapeError]
    split_ifs <;> rfl

/-- The tests of lines 136-145 all pass exactly for 6 ≤ v, v not 7 under non-extended
addressing, and v ≤ payload size - 2. -/
theorem escapeError_eq_none (v : Nat) (m : can.Message) :
    escapeError v m = none ↔
      (6 ≤ v ∧ ¬ (v = 7 ∧ m.IsExtended = false) ∧ (v : Int) ≤ (m.Payload.length : Int) - 2) := by
  unfold escapeError
  split_ifs with h1 h2 h3
  · simp; omega
  · simp; intro _ h; exact absurd h2.2 (by simp [h h2.1])
  · simp; intro _ _; omega
  · simp
    refine ⟨by omega, ?_, by omega⟩
    intro hv
    by_contra hx
    exact h2 ⟨hv, by simpa using hx⟩

/-- An error of `getSFDL` is the result of `InitSingleFrame` without argument. -/
theorem InitSingleFrame_of_getSFDL_err (nyb : Nat → Nat × Nat) (f f1 : PDU) (e : String)
    (h : getSFDL nyb f = .ok (f1, some e)) :
    InitSingleFrame nyb f none = .ok (f1, some e) := by
  simp [InitSingleFrame, h, bind, Except.bind, pure, Except.pure]

/-- After a successful `getSFDL`, `InitSingleFrame` without argument slices the payload
at payload size - `Length`. -/
theorem InitSingleFrame_of_getSFDL_ok (nyb : Nat → Nat × Nat) (f f1 : PDU) (m : can.Message)
    (h : getSFDL nyb f = .ok (f1, none)) (hraw : f1.Raw = some m) :
    InitSingleFrame nyb f none =
      (sliceFrom m.Payload ((m.Payload.length : Int) - f1.Length)).map
        (fun d => ({ f1 with Data := d }, none)) := by
  simp only [InitSingleFrame, h, hraw, deref, bind, Except.bind, pure, Except.pure]
  cases sliceFrom m.Payload ((m.Payload.length : Int) - f1.Length) <;> rfl

/-- What `InitSingleFrame` without argument accepts, and what it then holds. -/
theorem InitSingleFrame_ok_iff (nyb : Nat → Nat × Nat) (f f' : PDU) (m : can.Message)
    (hraw : f.Raw = some m) :
    InitSingleFrame nyb f none = .ok (f', none) ↔
      ∃ b0 v tl, m.Payload = b0 :: v :: tl ∧ shortFormPasses (nyb b0).1 m ∧
        escapeError v m = none ∧
        f' = { f with Length := (v : Int),
                      Data := m.Payload.drop (m.Payload.length - v) } := by
  rcases hp : m.Payload with _ | ⟨b0, _ | ⟨v, tl⟩⟩
  · simp [InitSingleFrame, getSFDL, deref, index, hraw, hp, bind, Except.bind, pure,
      Except.pure]
  · obtain ⟨f1, e, he⟩ := getSFDL_one_byte nyb f m b0 hraw hp
    rw [InitSingleFrame_of_getSFDL_err nyb f f1 e he]
    simp
  · by_cases hpass : shortFormPasses (nyb b0).1 m
    · have hg := getSFDL_escape nyb f m b0 v tl hraw hp hpass
      cases hesc : escapeError v m with
      | some e =>
        rw [hesc] at hg
        rw [InitSingleFrame_of_getSFDL_err nyb f _ e hg]
        simp [hesc]
      | none =>
        rw [hesc] at hg
        rw [InitSingleFrame_of_getSFDL_ok nyb f _ m hg hraw]
        have hb := (escapeError_eq_none v m).1 hesc
        have hlen : m.Payload.length = tl.length + 2 := by simp [hp]
        have hs : sliceFrom m.Payload ((m.Payload.length : Int) - (v : Int)) =
            .ok (m.Payload.drop (m.Payload.length - v)) := by
          have h1 : ((m.Payload.length : Int) - (v : Int)).toNat = m.Payload.length - v := by
            omega
          have h2 : 0 ≤ (m.Payload.length : Int) - (v : Int) ∧
              (m.Payload.length : Int) - (v : Int) ≤ (m.Payload.length : Int) := by omega
          simp only [sliceFrom, h2, and_self, if_true, h1]
        simp only [hs, Except.map]
        rw [hp]
        constructor
        · intro h
          simp only [Except.ok.injEq, Prod.mk.injEq, and_true] at h
          exact ⟨b0, v, tl, rfl, hpass, hesc, h.symm⟩
        · rintro ⟨b1, v1, tl1, hl, _, _, rfl⟩
          simp only [List.cons.injEq] at hl
          obtain ⟨rfl, rfl, rfl⟩ := hl
          rfl
    · obtain ⟨e, he⟩ := getSFDL_short_reject nyb f m b0 (v :: tl) hraw hp hpass
      rw [InitSingleFrame_of_getSFDL_err nyb f _ e he]
      simp [hpass]

/-- The classifier `GetType` changes no field but `Type`. -/
theorem GetType_frame (nyb : Nat → Nat × Nat) (f f1 : PDU) (t : Int) (e : Option String)
    (h : GetType nyb f = .ok (f1, t, e)) :
    ∃ t', f1 = { f with Type_ := t' } := by
  unfold GetType at h
  cases hr : deref f.Raw with
  | error x => simp [hr, bind, Except.bind] at h
  | ok m =>
    cases hi : index m.Payload 0 with
    | error x => simp [hr, hi, bind, Except.bind] at h
    | ok b0 =>
      simp only [hr, hi, bind, Except.bind, pure, Except.pure] at h
      split_ifs at h
      · simp only [Except.ok.injEq, Prod.mk.injEq] at h
        exact ⟨_, h.1.symm⟩
      · simp only [Except.ok.injEq, Prod.mk.injEq] at h
        exact ⟨_, h.1.symm⟩

/-- With a payload argument, `InitSingleFrame` stores it, classifies, and on a valid type
goes on as the call without argument does. -/
theorem InitSingleFrame_some (nyb : Nat → Nat × Nat) (f : PDU) (m : can.Message)
    (p : List Nat) (hraw : f.Raw = some m) :
    InitSingleFrame nyb f (some p) =
      match GetType nyb { f with Raw := some { m with Payload := p } } with
      | .error x => .error x
      | .ok (f1, _, some e) => .ok (f1, some e)
      | .ok (f1, _, none) => InitSingleFrame nyb f1 none := by
  simp only [InitSingleFrame, deref, hraw, bind, Except.bind, pure, Except.pure]
  cases GetType nyb { f with Raw := some { m with Payload := p } } with
  | error x => rfl
  | ok r =>
    obtain ⟨f1, t, e⟩ := r
    cases e <;> rfl

/-- Single Frame escape form, the call without argument.  On a payload whose length
nibble `bits.GetNybble(payload[0])[0]` is zero, `InitSingleFrame` (without a payload
argument) returns an error when the payload has one byte only; with two bytes or
more and v = byte 1 it returns, and it returns no error if and only if 6 ≤ v, not
(v = 7 under non-extended addressing), and v ≤ payload size - 2; on success
`Length` = v. -/
theorem InitSingleFrame_none_escape (nyb : Nat → Nat × Nat) (f : PDU) (m : can.Message)
    (b0 : Nat) (rest : List Nat) (hraw : f.Raw = some m) (hp : m.Payload = b0 :: rest)
    (hn : (nyb b0).1 = 0) :
    (rest = [] → ∃ f' e, InitSingleFrame nyb f none = .ok (f', some e)) ∧
    (∀ v tl, rest = v :: tl →
      ((∃ f', InitSingleFrame nyb f none = .ok (f', none)) ↔
        (6 ≤ v ∧ ¬ (v = 7 ∧ m.IsExtended = false) ∧
          (v : Int) ≤ (m.Payload.length : Int) - 2)) ∧
      (∃ f' e, InitSingleFrame nyb f none = .ok (f', e)) ∧
      (∀ f', InitSingleFrame nyb f none = .ok (f', none) → f'.Length = (v : Int))) := by
  have hpass : shortFormPasses (nyb b0).1 m := Or.inl hn
  refine ⟨?_, ?_⟩
  · intro hr
    subst hr
    obtain ⟨f1, e, he⟩ := getSFDL_one_byte nyb f m b0 hraw hp
    exact ⟨f1, e, InitSingleFrame_of_getSFDL_err nyb f f1 e he⟩
  · intro v tl hr
    subst hr
    refine ⟨⟨?_, ?_⟩, ?_, ?_⟩
    · rintro ⟨f', hf'⟩
      obtain ⟨b1, v1, tl1, hp1, _, hesc, _⟩ :=
        (InitSingleFrame_ok_iff nyb f f' m hraw).1 hf'
      rw [hp] at hp1
      simp only [List.cons.injEq] at hp1
      obtain ⟨_, rfl, _⟩ := hp1
      exact (escapeError_eq_none v m).1 hesc
    · intro hc
      exact ⟨_, (InitSingleFrame_ok_iff nyb f _ m hraw).2
        ⟨b0, v, tl, hp, hpass, (escapeError_eq_none v m).2 hc, rfl⟩⟩
    · cases hesc : escapeError v m with
      | none =>
        exact ⟨_, none, (InitSingleFrame_ok_iff nyb f _ m hraw).2
          ⟨b0, v, tl, hp, hpass, hesc, rfl⟩⟩
      | some e =>
        have hg := getSFDL_escape nyb f m b0 v tl hraw hp hpass
        rw [hesc] at hg
        exact ⟨_, some e, InitSingleFrame_of_getSFDL_err nyb f _ e hg⟩
    · intro f' hf'
      obtain ⟨b1, v1, tl1, hp1, _, _, hf⟩ :=
        (InitSingleFrame_ok_iff nyb f f' m hraw).1 hf'
      rw [hp] at hp1
      simp only [List.cons.injEq] at hp1
      obtain ⟨_, rfl, _⟩ := hp1
      rw [hf]

/-- Single Frame short form rejection, the call without argument.  On a payload whose
length nibble n = `bits.GetNybble(payload[0])[0]` is non-zero, `InitSingleFrame` (without a payload
argument) returns an error, with `Length` = n, whenever n > 7, or n > payload
size - 1, or n = 7 under extended addressing. -/
theorem InitSingleFrame_none_short_reject (nyb : Nat → Nat × Nat) (f : PDU) (m : can.Message)
    (b0 : Nat) (rest : List Nat) (hraw : f.Raw = some m) (hp : m.Payload = b0 :: rest)
    (hn : (nyb b0).1 ≠ 0)
    (hbad : 7 < (nyb b0).1 ∨ (m.Payload.length : Int) - 1 < ((nyb b0).1 : Int) ∨
      ((nyb b0).1 = 7 ∧ m.IsExtended = true)) :
    ∃ e, InitSingleFrame nyb f none =
      .ok ({ f with Length := ((nyb b0).1 : Int) }, some e) := by
  have hnp : ¬ shortFormPasses (nyb b0).1 m := by
    rintro (h0 | ⟨h7, hl, hx⟩)
    · exact hn h0
    · rcases hbad with h | h | h
      · omega
      · omega
      · exact hx h
  obtain ⟨e, he⟩ := getSFDL_short_reject nyb f m b0 rest hraw hp hnp
  exact ⟨e, InitSingleFrame_of_getSFDL_err nyb f _ e he⟩

/-- Without argument: when `InitSingleFrame` succeeds, `Data` is the payload from offset
payload size - `Length`, and that is its last `Length` bytes. -/
theorem InitSingleFrame_none_slice (nyb : Nat → Nat × Nat) (f f' : PDU) (m : can.Message)
    (hraw : f.Raw = some m) (h : InitSingleFrame nyb f none = .ok (f', none)) :
    f'.Raw = some m ∧
    0 ≤ (m.Payload.length : Int) - f'.Length ∧
    (m.Payload.length : Int) - f'.Length ≤ (m.Payload.length : Int) ∧
    f'.Data = m.Payload.drop ((m.Payload.length : Int) - f'.Length).toNat ∧
    (f'.Data.length : Int) = f'.Length := by
  obtain ⟨b0, v, tl, hp, _, hesc, hf⟩ := (InitSingleFrame_ok_iff nyb f f' m hraw).1 h
  have hb := (escapeError_eq_none v m).1 hesc
  have h1 : ((m.Payload.length : Int) - (v : Int)).toNat = m.Payload.length - v := by omega
  subst hf
  refine ⟨hraw, ?_, ?_, ?_, ?_⟩
  · simp only; omega
  · simp only; omega
  · simp only [h1]
  · simp only [List.length_drop]
    omega

/-- C9: whenever `InitSingleFrame` succeeds (with or without a payload argument), with
the payload being that of the message `Raw` then refers to (the argument, when one was
given), the data offset payload size - `Length` lies in 0..payload size, `Data` is
the payload from that offset on, and `Data` has exactly `Length` bytes: the trailing
`Length` bytes of the payload. -/
theorem InitSingleFrame_data (nyb : Nat → Nat × Nat) (f f' : PDU) (b : Option (List Nat))
    (h : InitSingleFrame nyb f b = .ok (f', none)) :
    ∃ m', f'.Raw = some m' ∧ (∀ p, b = some p → m'.Payload = p) ∧
      (b = none → f.Raw = some m') ∧
      0 ≤ (m'.Payload.length : Int) - f'.Length ∧
      (m'.Payload.length : Int) - f'.Length ≤ (m'.Payload.length : Int) ∧
      f'.Data = m'.Payload.drop ((m'.Payload.length : Int) - f'.Length).toNat ∧
      (f'.Data.length : Int) = f'.Length ∧
      m'.Payload = m'.Payload.take ((m'.Payload.length : Int) - f'.Length).toNat ++ f'.Data := by
  cases hraw : f.Raw with
  | none =>
    cases b <;>
      simp [InitSingleFrame, getSFDL, deref, hraw, bind, Except.bind, pure, Except.pure] at h
  | some m =>
    cases b with
    | none =>
      obtain ⟨h1, h2, h3, h4, h5⟩ := InitSingleFrame_none_slice nyb f f' m hraw h
      refine ⟨m, h1, ?_, fun _ => rfl, h2, h3, h4, h5, ?_⟩
      · intro p hp
        cases hp
      · rw [h4, List.take_append_drop]
    | some p =>
      rw [InitSingleFrame_some nyb f m p hraw] at h
      cases hg : GetType nyb { f with Raw := some { m with Payload := p } } with
      | error x => simp [hg] at h
      | ok r =>
        obtain ⟨f1, t, e⟩ := r
        cases e with
        | some e => simp [hg] at h
        | none =>
          simp only [hg] at h
          obtain ⟨t', ht⟩ := GetType_frame nyb _ f1 t none hg
          have hraw1 : f1.Raw = some { m with Payload := p } := by rw [ht]
          obtain ⟨h1, h2, h3, h4, h5⟩ :=
            InitSingleFrame_none_slice nyb f1 f' _ hraw1 h
          refine ⟨_, h1, ?_, ?_, h2, h3, h4, h5, ?_⟩
          · intro q hq
            cases hq
            rfl
          · intro hb
            cases hb
          · rw [h4, List.take_append_drop]

/-- C9 at a concrete payload: `[0x00, 0x06, 1, 2, 3, 4, 5, 6]` has size 8, `Length` 6,
offset 2, and `Data` its last 6 bytes. -/
theorem InitSingleFrame_data_witness :
    InitSingleFrame GetNybble (pduOf (stdMsg [0x00, 0x06, 1, 2, 3, 4, 5, 6])) none =
      .ok ({ pduOf (stdMsg [0x00, 0x06, 1, 2, 3, 4, 5, 6]) with
              Length := 6, Data := [1, 2, 3, 4, 5, 6] }, none) ∧
    ∃ m', ({ pduOf (stdMsg [0x00, 0x06, 1, 2, 3, 4, 5, 6]) with
              Length := 6, Data := [1, 2, 3, 4, 5, 6] } : PDU).Raw = some m' ∧
      (∀ p, (none : Option (List Nat)) = some p → m'.Payload = p) ∧
      ((none : Option (List Nat)) = none →
        (pduOf (stdMsg [0x00, 0x06, 1, 2, 3, 4, 5, 6])).Raw = some m') ∧
      0 ≤ (m'.Payload.length : Int) - 6 ∧
      (m'.Payload.length : Int) - 6 ≤ (m'.Payload.length : Int) ∧
      [1, 2, 3, 4, 5, 6] = m'.Payload.drop ((m'.Payload.length : Int) - 6).toNat ∧
      (([1, 2, 3, 4, 5, 6] : List Nat).length : Int) = 6 ∧
      m'.Payload = m'.Payload.take ((m'.Payload.length : Int) - 6).toNat ++
        [1, 2, 3, 4, 5, 6] :=
  ⟨rfl, InitSingleFrame_data GetNybble (pduOf (stdMsg [0x00, 0x06, 1, 2, 3, 4, 5, 6]))
    _ none rfl⟩

/-- C2 (Single Frame round trip), refuted on the code for every reading of
`bits.GetNybble`: for every L (so for L in 1..7) and every d of L bytes, under either
addressing, the payload `[L] ++ d` is never decoded by `InitSingleFrame` to
`Length` = L.  Line 135 overwrites `Length` with byte 1 after the short-form block,
and an accepted byte 1 is at most payload size - 2 = L - 1. -/
theorem InitSingleFrame_no_round_trip (nyb : Nat → Nat × Nat) (f : PDU) (m : can.Message)
    (L : Nat) (d : List Nat) (hraw : f.Raw = some m) (hp : m.Payload = L :: d)
    (hd : d.length = L) :
    ¬ ∃ f', InitSingleFrame nyb f none = .ok (f', none) ∧ f'.Length = (L : Int) := by
  rintro ⟨f', hf', hlen⟩
  obtain ⟨b0, v, tl, hp1, _, hesc, hf⟩ := (InitSingleFrame_ok_iff nyb f f' m hraw).1 hf'
  have hb := (escapeError_eq_none v m).1 hesc
  have hl : m.Payload.length = L + 1 := by rw [hp, List.length_cons, hd]
  rw [hf] at hlen
  simp only at hlen
  omega

/-- C2 at concrete payloads.  `[0x03, 0xAA, 0xBB, 0xCC]` (L = 3) is an error with
`Length` = 0xAA, both with `GetNybble` and with the nibbles in the other order (low
nibble first, the order in which byte 0 = L classifies as a Single Frame of length
nibble L).  In that order `[0x07, 6, 1, 2, 3, 4, 5, 6]` (L = 7) is accepted with
`Length` 6 and `Data` the last 6 bytes, not 7 and the 7 bytes after byte 0. -/
theorem InitSingleFrame_no_round_trip_witness :
    (¬ ∃ f', InitSingleFrame GetNybble (pduOf (stdMsg [0x03, 0xAA, 0xBB, 0xCC])) none =
        .ok (f', none) ∧ f'.Length = ((3 : Nat) : Int)) ∧
    InitSingleFrame GetNybble (pduOf (stdMsg [0x03, 0xAA, 0xBB, 0xCC])) none =
      .ok ({ pduOf (stdMsg [0x03, 0xAA, 0xBB, 0xCC]) with Length := 0xAA },
        some "invalid SF Data Length") ∧
    InitSingleFrame (fun b => (b % 16, b / 16))
        (pduOf (stdMsg [0x03, 0xAA, 0xBB, 0xCC])) none =
      .ok ({ pduOf (stdMsg [0x03, 0xAA, 0xBB, 0xCC]) with Length := 0xAA },
        some "invalid SF Data Length") ∧
    InitSingleFrame (fun b => (b % 16, b / 16))
        (pduOf (stdMsg [0x07, 6, 1, 2, 3, 4, 5, 6])) none =
      .ok ({ pduOf (stdMsg [0x07, 6, 1, 2, 3, 4, 5, 6]) with
              Length := 6, Data := [1, 2, 3, 4, 5, 6] }, none) :=
  ⟨InitSingleFrame_no_round_trip GetNybble (pduOf (stdMsg [0x03, 0xAA, 0xBB, 0xCC]))
      (stdMsg [0x03, 0xAA, 0xBB, 0xCC]) 3 [0xAA, 0xBB, 0xCC] rfl rfl rfl,
   rfl, rfl, rfl⟩

/-- The method `getFFDL` in terms of its bound. -/
theorem getFFDL_eq (parse : List Nat → Int → Except Panic (Int × Option String))
    (f : PDU) (m : can.Message) (hraw : f.Raw = some m) :
    getFFDL parse f =
      match parse m.Payload (ffMinVal f m) with
      | .error x => .error x
      | .ok (_, some e) => .ok (0, some e)
      | .ok (val, none) =>
        if val < ffMinVal f m then .ok (0, some "length of first frame is too small")
        else .ok (val, none) := by
  simp only [getFFDL, deref, hraw, bind, Except.bind, pure, Except.pure, ffMinVal]
  cases parse m.Payload (if f.Length > 8 then
      (if m.IsExtended = true then (m.Payload.length : Int) - 2
       else (m.Payload.length : Int) - 1)
    else (if m.IsExtended = true then 7 else 8)) with
  | error x => rfl
  | ok r =>
    obtain ⟨v, e⟩ := r
    cases e <;> rfl

/-- A successful `getFFDL` returns what `parseFFLength` returned, at least the bound. -/
theorem getFFDL_ok (parse : List Nat → Int → Except Panic (Int × Option String))
    (f : PDU) (m : can.Message) (val : Int) (hraw : f.Raw = some m)
    (h : getFFDL parse f = .ok (val, none)) :
    parse m.Payload (ffMinVal f m) = .ok (val, none) ∧ ffMinVal f m ≤ val := by
  rw [getFFDL_eq parse f m hraw] at h
  cases hp : parse m.Payload (ffMinVal f m) with
  | error x => simp [hp] at h
  | ok r =>
    obtain ⟨v, e⟩ := r
    cases e with
    | some e => simp [hp] at h
    | none =>
      simp only [hp] at h
      split_ifs at h with hlt
      · simp at h
      · simp only [Except.ok.injEq, Prod.mk.injEq, and_true] at h
        subst h
        exact ⟨rfl, by omega⟩

/-- C3 (First Frame length and data offset), refuted on the code for every
`bits.GetNybble` and every body of `parseFFLength`: when `InitFirstFrame` (without a
payload argument) returns no error, `Length` is what it was before the call, not the
declared length, and `Data` is the payload from offset val on, where val is the
declared length `parseFFLength` returned, itself at least the bound of `getFFDL`
(at least 7 when `Length` was at most 8, as on a fresh record): never the header
size 2 or 6. -/
theorem InitFirstFrame_keeps_Length (nyb : Nat → Nat × Nat)
    (parse : List Nat → Int → Except Panic (Int × Option String)) (f f' : PDU)
    (h : InitFirstFrame nyb parse f none = .ok (f', none)) :
    f'.Length = f.Length ∧
    ∃ m val, f.Raw = some m ∧ parse m.Payload (ffMinVal f m) = .ok (val, none) ∧
      ffMinVal f m ≤ val ∧ (f.Length ≤ 8 → 7 ≤ val) ∧ val ≤ (m.Payload.length : Int) ∧
      f' = { f with Data := m.Payload.drop val.toNat } := by
  cases hraw : f.Raw with
  | none =>
    simp [InitFirstFrame, getFFDL, deref, hraw, bind, Except.bind, pure, Except.pure] at h
  | some m =>
    simp only [InitFirstFrame, bind, Except.bind, pure, Except.pure] at h
    cases hg : getFFDL parse f with
    | error x => simp [hg] at h
    | ok r =>
      obtain ⟨val, e⟩ := r
      cases e with
      | some e => simp [hg] at h
      | none =>
        obtain ⟨hp, hmin⟩ := getFFDL_ok parse f m val hraw hg
        simp only [hg, hraw, deref, sliceFrom] at h
        split_ifs at h with hs
        · simp only [Except.ok.injEq, Prod.mk.injEq, and_true] at h
          subst h
          refine ⟨rfl, m, val, rfl, hp, hmin, ?_, hs.2, ?_⟩
          · intro h8
            have : 7 ≤ ffMinVal f m := by
              unfold ffMinVal
              split_ifs <;> omega
            omega
          · simp only [hraw]

/-- C3 at concrete First Frames with 12-bit field 10 (bytes 0x10 0x0A), on a fresh
record, with `GetNybble` and `parseFFLength` as the spec describes them.  With 12
bytes (CAN FD) `InitFirstFrame` returns no error, `Length` is still 0 and `Data` is
`payload[10:]`, the last two bytes, where the claim has `Length` 10 and `Data` =
`payload[2:]`.  With 8 bytes (classic CAN) the slice `payload[10:]` is out of range
and the call panics. -/
theorem InitFirstFrame_keeps_Length_witness :
    parseFFLength GetNybble ff12 8 = .ok (10, none) ∧
    InitFirstFrame GetNybble (parseFFLength GetNybble) (pduOf (fdMsg ff12)) none =
      .ok ({ pduOf (fdMsg ff12) with Data := [9, 10] }, none) ∧
    ({ pduOf (fdMsg ff12) with Data := [9, 10] } : PDU).Length = (pduOf (fdMsg ff12)).Length ∧
    InitFirstFrame GetNybble (parseFFLength GetNybble)
        (pduOf (stdMsg [0x10, 0x0A, 1, 2, 3, 4, 5, 6])) none =
      .error .sliceBoundsOutOfRange :=
  ⟨rfl, rfl,
   (InitFirstFrame_keeps_Length GetNybble (parseFFLength GetNybble) (pduOf (fdMsg ff12))
      { pduOf (fdMsg ff12) with Data := [9, 10] } rfl).1,
   rfl⟩

/-- C10 (First Frame minimum bound), evaluated on the code with `GetNybble` and
`parseFFLength` as the spec describes them: the bound is chosen by the record's
`Length` field before the call (line 76), not by the payload size.  The 12-byte
standard-addressing frame declaring length 10 is below the claim's bound 12 - 1 = 11,
yet on a fresh record (`Length` = 0) the bound used is 8 and no error is returned;
on a record whose `Length` is 9 the same message gets the bound 11 and the error. -/
theorem InitFirstFrame_bound_from_Length :
    InitFirstFrame GetNybble (parseFFLength GetNybble) (pduOf (fdMsg ff12)) none =
      .ok ({ pduOf (fdMsg ff12) with Data := [9, 10] }, none) ∧
    InitFirstFrame GetNybble (parseFFLength GetNybble)
        { pduOf (fdMsg ff12) with Length := 9 } none =
      .ok ({ pduOf (fdMsg ff12) with Length := 9 },
        some "length of first frame is too small") ∧
    getFFDL (parseFFLength GetNybble) (pduOf (fdMsg ff12)) = .ok (10, none) ∧
    getFFDL (parseFFLength GetNybble) { pduOf (fdMsg ff12) with Length := 9 } =
      .ok (0, some "length of first frame is too small") ∧
    ffMinVal (pduOf (fdMsg ff12)) (fdMsg ff12) = 8 ∧
    ffMinVal { pduOf (fdMsg ff12) with Length := 9 } (fdMsg ff12) = 11 :=
  ⟨rfl, rfl, rfl, rfl, rfl, rfl⟩

/-- The classifier in closed form on a non-empty payload. -/
theorem GetType_eq (nyb : Nat → Nat × Nat) (f : PDU) (m : can.Message)
    (b0 : Nat) (rest : List Nat) (hraw : f.Raw = some m) (hp : m.Payload = b0 :: rest) :
    GetType nyb f =
      if 3 < (nyb b0).2 then .ok ({ f with Type_ := -1 }, -1, some "Invalid ISOTP type")
      else .ok ({ f with Type_ := ((nyb b0).2 : Int) }, ((nyb b0).2 : Int), none) := by
  simp [GetType, deref, index, hraw, hp, bind, Except.bind, pure, Except.pure]

/-- The dispatch of `Init` in closed form on a non-empty payload. -/
theorem Init_eq (nyb : Nat → Nat × Nat)
    (parse : List Nat → Int → Except Panic (Int × Option String))
    (f : PDU) (m : can.Message) (b0 : Nat) (rest : List Nat) (hp : m.Payload = b0 :: rest) :
    Init nyb parse f m =
      if (nyb b0).2 = 3 then InitFlowControl nyb { f with Raw := some m, Type_ := FC } none
      else if (nyb b0).2 = 2 then
        InitContinuationFrame nyb { f with Raw := some m, Type_ := CF }
      else if (nyb b0).2 = 1 then
        InitFirstFrame nyb parse { f with Raw := some m, Type_ := FF } none
      else if (nyb b0).2 = 0 then InitSingleFrame nyb { f with Raw := some m, Type_ := SF } none
      else .ok ({ f with Raw := some m, Type_ := -1 }, some "Invalid ISOTP type") := by
  unfold Init
  rw [GetType_eq nyb { f with Raw := some m } m b0 rest rfl hp]
  by_cases h3 : (nyb b0).2 = 3
  · simp [h3, bind, Except.bind, FC]
  by_cases h2 : (nyb b0).2 = 2
  · simp [h2, bind, Except.bind, FC, CF]
  by_cases h1 : (nyb b0).2 = 1
  · simp [h1, bind, Except.bind, FC, CF, FF]
  by_cases h0 : (nyb b0).2 = 0
  · simp [h0, bind, Except.bind, FC, CF, FF, SF]
  have h4 : 3 < (nyb b0).2 := by omega
  simp [h3, h2, h1, h0, h4, bind, Except.bind, pure, Except.pure, FC, CF, FF, SF]

/-- C12: on a message with a non-empty payload whose type nibble is 4 or more, `Init`
returns the classifier's error, `Type` is the sentinel -1, `Raw` refers to the
message, and no parser has run: every other field (`Length`, `Data`, `Flag`, `Index`,
`BlockSize`, `SepTime`) is as before the call. -/
theorem Init_invalid_type (nyb : Nat → Nat × Nat)
    (parse : List Nat → Int → Except Panic (Int × Option String))
    (f : PDU) (m : can.Message) (b0 : Nat) (rest : List Nat) (hp : m.Payload = b0 :: rest)
    (ht : 4 ≤ (nyb b0).2) :
    Init nyb parse f m =
      .ok ({ f with Raw := some m, Type_ := -1 }, some "Invalid ISOTP type") ∧
    GetType nyb { f with Raw := some m } =
      .ok ({ f with Raw := some m, Type_ := -1 }, -1, some "Invalid ISOTP type") ∧
    ∀ f' e, Init nyb parse f m = .ok (f', e) →
      e = some "Invalid ISOTP type" ∧ f'.Type_ = -1 ∧
      f'.Type_ ≠ SF ∧ f'.Type_ ≠ FF ∧ f'.Type_ ≠ CF ∧ f'.Type_ ≠ FC ∧
      f'.Length = f.Length ∧ f'.Data = f.Data ∧ f'.Flag = f.Flag ∧
      f'.Index = f.Index ∧ f'.BlockSize = f.BlockSize ∧ f'.SepTime = f.SepTime := by
  have hI : Init nyb parse f m =
      .ok ({ f with Raw := some m, Type_ := -1 }, some "Invalid ISOTP type") := by
    rw [Init_eq nyb parse f m b0 rest hp]
    simp [show ¬ (nyb b0).2 = 3 by omega, show ¬ (nyb b0).2 = 2 by omega,
      show ¬ (nyb b0).2 = 1 by omega, show ¬ (nyb b0).2 = 0 by omega]
  refine ⟨hI, ?_, ?_⟩
  · rw [GetType_eq nyb { f with Raw := some m } m b0 rest rfl hp]
    simp [show 3 < (nyb b0).2 by omega]
  · intro f' e h
    rw [hI] at h
    simp only [Except.ok.injEq, Prod.mk.injEq] at h
    obtain ⟨rfl, rfl⟩ := h
    simp [SF, FF, CF, FC]

/-- C12 at concrete messages under `GetNybble`: type nibbles 4 and 15, on a record that
holds values from an earlier decode. -/
theorem Init_invalid_type_witness :
    Init GetNybble (parseFFLength GetNybble)
        { Type_ := FC, Flag := Wait, Length := 6, Data := [1, 2], Raw := none,
          Index := 3, BlockSize := 8, SepTime := 127 * Millisecond }
        (stdMsg [0x04, 0x2A]) =
      .ok ({ Type_ := -1, Flag := Wait, Length := 6, Data := [1, 2],
             Raw := some (stdMsg [0x04, 0x2A]),
             Index := 3, BlockSize := 8, SepTime := 127 * Millisecond },
        some "Invalid ISOTP type") ∧
    Init GetNybble (parseFFLength GetNybble) freshPDU (stdMsg [0x1F]) =
      .ok ({ pduOf (stdMsg [0x1F]) with Type_ := -1 }, some "Invalid ISOTP type") :=
  ⟨(Init_invalid_type GetNybble (parseFFLength GetNybble) _ (stdMsg [0x04, 0x2A])
      0x04 [0x2A] rfl (by decide)).1,
   (Init_invalid_type GetNybble (parseFFLength GetNybble) _ (stdMsg [0x1F])
      0x1F [] rfl (by decide)).1⟩

/-- The flag reader in closed form on a non-empty payload. -/
theorem GetFlag_eq (nyb : Nat → Nat × Nat) (f : PDU) (m : can.Message)
    (b0 : Nat) (rest : List Nat) (hraw : f.Raw = some m) (hp : m.Payload = b0 :: rest) :
    GetFlag nyb f =
      if 2 < (nyb b0).1 then .ok ({ f with Flag := -1 }, -1, some "Invalid Flow Control Flag")
      else .ok ({ f with Flag := ((nyb b0).1 : Int) }, ((nyb b0).1 : Int), none) := by
  simp [GetFlag, deref, index, hraw, hp, bind, Except.bind, pure, Except.pure]

/-- The method `getSFDL` reads index 0 of the nibble pair only. -/
theorem getSFDL_reads_index0 (nyb nyb2 : Nat → Nat × Nat) (f : PDU)
    (h : ∀ b, (nyb b).1 = (nyb2 b).1) : getSFDL nyb f = getSFDL nyb2 f := by
  simp only [getSFDL, h]

/-- C17 as the code has it, counter to the claim: with `bits.GetNybble(b)` = `(b >> 4, b & 0xF)`
(high nibble first), byte 0 = 0x20 has high nibble 2, yet `GetType` classifies it as
`SF` (it reads index 1, the low nibble 0); byte 0 = 0x13 has low nibble 3, yet `GetFlag`
returns the flag 1 (index 0, the high nibble); and on `[0x50, 1, 2]` `getSFDL` takes the
length nibble 5, the high nibble, where the low nibble is 0. -/
theorem nibble_indices_counterexample :
    GetNybble 0x20 = (0x20 >>> 4, 0x20 &&& 0xF) ∧ (0x20 >>> 4 = 2) ∧ (0x20 &&& 0xF = 0) ∧
    GetType GetNybble (pduOf (stdMsg [0x20, 0x2A])) =
      .ok ({ pduOf (stdMsg [0x20, 0x2A]) with Type_ := SF }, SF, none) ∧
    (0x13 >>> 4 = 1) ∧ (0x13 &&& 0xF = 3) ∧
    GetFlag GetNybble (pduOf (stdMsg [0x13, 0x08, 0x7F])) =
      .ok ({ pduOf (stdMsg [0x13, 0x08, 0x7F]) with Flag := 1 }, 1, none) ∧
    (0x50 >>> 4 = 5) ∧ (0x50 &&& 0xF = 0) ∧
    getSFDL GetNybble (pduOf (stdMsg [0x50, 1, 2])) =
      .ok ({ pduOf (stdMsg [0x50, 1, 2]) with Length := 5 }, some "invalid SF Data Length") :=
  ⟨rfl, by decide, by decide, rfl, by decide, by decide, rfl, by decide, by decide, rfl⟩

/-- C17 amended: with `bits.GetNybble(b)` = `(b >> 4, b & 0xF)`, high nibble first, on
every non-empty payload `GetType` classifies on index 1 of the pair, the low nibble
`payload[0] & 0xF` (= `payload[0] % 16`), while `GetFlag` takes the flag and `getSFDL`
the Single Frame length nibble from index 0, the high nibble `payload[0] >> 4`
(= `payload[0] / 16`). -/
theorem nibble_indices (nyb : Nat → Nat × Nat) (hnyb : ∀ b, nyb b = (b >>> 4, b &&& 0xF))
    (f : PDU) (m : can.Message) (b0 : Nat) (rest : List Nat)
    (hraw : f.Raw = some m) (hp : m.Payload = b0 :: rest) :
    (GetType nyb f =
      if 3 < b0 &&& 0xF then .ok ({ f with Type_ := -1 }, -1, some "Invalid ISOTP type")
      else .ok ({ f with Type_ := ((b0 &&& 0xF : Nat) : Int) }, ((b0 &&& 0xF : Nat) : Int),
        none)) ∧
    (GetFlag nyb f =
      if 2 < b0 >>> 4 then .ok ({ f with Flag := -1 }, -1, some "Invalid Flow Control Flag")
      else .ok ({ f with Flag := ((b0 >>> 4 : Nat) : Int) }, ((b0 >>> 4 : Nat) : Int),
        none)) ∧
    getSFDL nyb f = getSFDL (fun b => (b >>> 4, 0)) f ∧
    GetType nyb f = GetType (fun b => (0, b &&& 0xF)) f ∧
    GetFlag nyb f = GetFlag (fun b => (b >>> 4, 0)) f ∧
    (b0 &&& 0xF = b0 % 16) ∧ (b0 >>> 4 = b0 / 16) := by
  have e1 := GetType_eq nyb f m b0 rest hraw hp
  have e2 := GetFlag_eq nyb f m b0 rest hraw hp
  simp only [hnyb] at e1 e2
  refine ⟨e1, e2, ?_, ?_, ?_, ?_, ?_⟩
  · exact getSFDL_reads_index0 nyb _ f (fun b => by simp [hnyb])
  · rw [e1, GetType_eq (fun b => (0, b &&& 0xF)) f m b0 rest hraw hp]
  · rw [e2, GetFlag_eq (fun b => (b >>> 4, 0)) f m b0 rest hraw hp]
  · exact Nat.and_pow_two_sub_one_eq_mod b0 4
  · exact Nat.shiftRight_eq_div_pow b0 4

/-- C17 amended, at byte 0 = 0x31 with `GetNybble`: the type is the low nibble 1 (`FF`)
and the flag the high nibble 3 (an invalid flag). -/
theorem nibble_indices_witness :
    GetType GetNybble (pduOf (stdMsg [0x31, 0x08, 0x7F])) =
      .ok ({ pduOf (stdMsg [0x31, 0x08, 0x7F]) with Type_ := FF }, FF, none) ∧
    GetFlag GetNybble (pduOf (stdMsg [0x31, 0x08, 0x7F])) =
      .ok ({ pduOf (stdMsg [0x31, 0x08, 0x7F]) with Flag := -1 }, -1,
        some "Invalid Flow Control Flag") ∧
    getSFDL GetNybble (pduOf (stdMsg [0x31, 0x08, 0x7F])) =
      getSFDL (fun b => (b >>> 4, 0)) (pduOf (stdMsg [0x31, 0x08, 0x7F])) :=
  ⟨rfl, rfl,
   (nibble_indices GetNybble (fun _ => rfl) (pduOf (stdMsg [0x31, 0x08, 0x7F]))
      (stdMsg [0x31, 0x08, 0x7F]) 0x31 [0x08, 0x7F] rfl rfl).2.2.1⟩

/-- C18 as the code has it, counter to the claim: the PDU's message holds the valid Flow
Control payload `[0x13, 0x08, 0x7F]`; called with the 2-byte argument `[0x13, 0x08]`,
`InitFlowControl` returns no error, having decoded the payload the message held, and
with the 4-byte argument likewise. -/
theorem InitFlowControl_bad_arg_counterexample :
    InitFlowControl GetNybble (pduOf (stdMsg [0x13, 0x08, 0x7F])) (some [0x13, 0x08]) =
      .ok ({ pduOf (stdMsg [0x13, 0x08, 0x7F]) with
              Flag := Wait, BlockSize := 8, SepTime := 127 * Millisecond }, none) ∧
    InitFlowControl GetNybble (pduOf (stdMsg [0x13, 0x08, 0x7F]))
        (some [0x13, 0x08, 0x7F, 0x00]) =
      .ok ({ pduOf (stdMsg [0x13, 0x08, 0x7F]) with
              Flag := Wait, BlockSize := 8, SepTime := 127 * Millisecond }, none) :=
  ⟨rfl, rfl⟩

/-- C18 amended: given a payload argument b with len(b) other than 3, `InitFlowControl`
does not store b (line 151) and does exactly what the call without argument does on
the message the PDU holds: it returns the length error, the record unchanged, when
that message's payload length is not 3, and decodes that payload otherwise. -/
theorem InitFlowControl_bad_arg (nyb : Nat → Nat × Nat) (f : PDU) (b : List Nat)
    (hb : b.length ≠ 3) :
    InitFlowControl nyb f (some b) = InitFlowControl nyb f none ∧
    (∀ m, f.Raw = some m → m.Payload.length ≠ 3 →
      InitFlowControl nyb f (some b) =
        .ok (f, some "Invalid Continuation Frame Length")) := by
  have h : InitFlowControl nyb f (some b) = InitFlowControl nyb f none := by
    simp [InitFlowControl, hb]
  refine ⟨h, ?_⟩
  intro m hraw hlen
  rw [h]
  simp [InitFlowControl, deref, hraw, bind, Except.bind, pure, Except.pure, hlen]

/-- C18 amended, at concrete inputs: the 2-byte argument is an error on a message of 2
bytes and is ignored on a message holding a valid Flow Control payload. -/
theorem InitFlowControl_bad_arg_witness :
    InitFlowControl GetNybble (pduOf (stdMsg [0x13, 0x08])) (some [0x13, 0x08]) =
      .ok (pduOf (stdMsg [0x13, 0x08]), some "Invalid Continuation Frame Length") ∧
    InitFlowControl GetNybble (pduOf (stdMsg [0x13, 0x08, 0x7F])) (some [0x13, 0x08]) =
      InitFlowControl GetNybble (pduOf (stdMsg [0x13, 0x08, 0x7F])) none :=
  ⟨(InitFlowControl_bad_arg GetNybble (pduOf (stdMsg [0x13, 0x08])) [0x13, 0x08]
      (by decide)).2 (stdMsg [0x13, 0x08]) rfl (by decide),
   (InitFlowControl_bad_arg GetNybble (pduOf (stdMsg [0x13, 0x08, 0x7F])) [0x13, 0x08]
      (by decide)).1⟩

/-- The separation-time reader in closed form on a payload of three bytes or more. -/
theorem GetSTMin_eq (f : PDU) (m : can.Message) (b0 b1 v : Nat) (rest : List Nat)
    (hraw : f.Raw = some m) (hp : m.Payload = b0 :: b1 :: v :: rest) :
    GetSTMin f =
      match sepTimeOf v with
      | some st => .ok ({ f with SepTime := st }, st, none)
      | none => .ok (f, 0, some "Invalid ST Min value") := by
  unfold sepTimeOf
  by_cases h1 : v ≤ 0x7F
  · have h1i : (v : Int) ≤ 127 := by omega
    simp [GetSTMin, deref, index, hraw, hp, bind, Except.bind, pure, Except.pure, h1, h1i]
  · have h1i : ¬ (v : Int) ≤ 127 := by omega
    by_cases h2 : 0xF1 ≤ v ∧ v ≤ 0xF9
    · have h2i : (241 : Int) ≤ v ∧ (v : Int) ≤ 249 := by omega
      simp [GetSTMin, deref, index, hraw, hp, bind, Except.bind, pure, Except.pure, h1, h1i,
        h2, h2i]
    · have h2i : ¬ ((241 : Int) ≤ v ∧ (v : Int) ≤ 249) := by omega
      simp only [GetSTMin, deref, index, hraw, hp, bind, Except.bind, pure, Except.pure]
      simp only [List.get?_cons_succ, List.get?_cons_zero, ge_iff_le, Nat.cast_nonneg,
        true_and]
      rw [if_neg h1, if_neg h2]
      simp only [Int.reduceNeg]
      rw [if_neg (by simpa using h1i), if_neg (by simpa using h2i)]

/-- The length test of `InitFlowControl` without argument. -/
theorem InitFlowControl_bad_length (nyb : Nat → Nat × Nat) (f : PDU) (m : can.Message)
    (hraw : f.Raw = some m) (hlen : m.Payload.length ≠ 3) :
    InitFlowControl nyb f none = .ok (f, some "Invalid Continuation Frame Length") := by
  simp [InitFlowControl, deref, hraw, bind, Except.bind, pure, Except.pure, hlen]

/-- The Flow Control parser without argument, in closed form on a 3-byte payload. -/
theorem InitFlowControl_eq (nyb : Nat → Nat × Nat) (f : PDU) (m : can.Message)
    (b0 b1 b2 : Nat) (hraw : f.Raw = some m) (hp : m.Payload = [b0, b1, b2]) :
    InitFlowControl nyb f none =
      if 2 < (nyb b0).1 then .ok ({ f with Flag := -1 }, some "Invalid Flow Control Flag")
      else match sepTimeOf b2 with
        | some st =>
          .ok ({ f with Flag := ((nyb b0).1 : Int), BlockSize := (b1 : Int), SepTime := st },
            none)
        | none =>
          .ok ({ f with Flag := ((nyb b0).1 : Int), BlockSize := (b1 : Int) },
            some "Invalid ST Min value") := by
  by_cases hn : 2 < (nyb b0).1
  · rw [if_pos hn]
    exact InitFlowControl_bad_flag nyb f m b0 b1 b2 hraw hp hn
  · rw [if_neg hn]
    obtain ⟨ty, fl, len, d, raw, ix, bs, st⟩ := f
    simp only at hraw
    subst hraw
    have hg := GetFlag_eq nyb ⟨ty, fl, len, d, some m, ix, bs, st⟩ m b0 [b1, b2] rfl hp
    rw [if_neg hn] at hg
    have hs := GetSTMin_eq ⟨ty, ((nyb b0).1 : Int), len, d, some m, ix, (b1 : Int), st⟩ m
      b0 b1 b2 [] rfl hp
    have hi : index m.Payload 1 = .ok b1 := by simp [index, hp]
    have hl : ¬ m.Payload.length ≠ 3 := by simp [hp]
    simp only [InitFlowControl, deref, bind, Except.bind, pure, Except.pure, hg, hi,
      if_neg hl, hs]
    cases sepTimeOf b2 <;> rfl

/-- A list of length 3 is three elements. -/
theorem length_three (p : List Nat) (h : p.length = 3) : ∃ a b c, p = [a, b, c] := by
  match p, h with
  | [a, b, c], _ => exact ⟨a, b, c, rfl⟩

/-- The Flow Control parser without argument returns on every PDU that has a message;
it writes `Flag`, `BlockSize` and `SepTime` only (`SepTime` only on success), and run
again on the record it filled it returns the same record and error. -/
theorem InitFlowControl_frame (nyb : Nat → Nat × Nat) (f : PDU) (m : can.Message)
    (hraw : f.Raw = some m) :
    ∃ f' e, InitFlowControl nyb f none = .ok (f', e) ∧
      f' = { f with Flag := f'.Flag, BlockSize := f'.BlockSize, SepTime := f'.SepTime } ∧
      (e ≠ none → f'.SepTime = f.SepTime) ∧
      InitFlowControl nyb f' none = .ok (f', e) := by
  by_cases hlen : m.Payload.length = 3
  · obtain ⟨b0, b1, b2, hp⟩ := length_three m.Payload hlen
    by_cases hn : 2 < (nyb b0).1
    · refine ⟨{ f with Flag := -1 }, some "Invalid Flow Control Flag", ?_, rfl, fun _ => rfl, ?_⟩
      · rw [InitFlowControl_eq nyb f m b0 b1 b2 hraw hp, if_pos hn]
      · rw [InitFlowControl_eq nyb { f with Flag := -1 } m b0 b1 b2 hraw hp, if_pos hn]
    · cases hs : sepTimeOf b2 with
      | none =>
        refine ⟨{ f with Flag := ((nyb b0).1 : Int), BlockSize := (b1 : Int) },
          some "Invalid ST Min value", ?_, rfl, fun _ => rfl, ?_⟩
        · rw [InitFlowControl_eq nyb f m b0 b1 b2 hraw hp, if_neg hn, hs]
        · rw [InitFlowControl_eq nyb
            { f with Flag := ((nyb b0).1 : Int), BlockSize := (b1 : Int) } m b0 b1 b2 hraw hp,
            if_neg hn, hs]
      | some st =>
        refine ⟨{ f with Flag := ((nyb b0).1 : Int), BlockSize := (b1 : Int), SepTime := st },
          none, ?_, rfl, fun h => absurd rfl h, ?_⟩
        · rw [InitFlowControl_eq nyb f m b0 b1 b2 hraw hp, if_neg hn, hs]
        · rw [InitFlowControl_eq nyb
            { f with Flag := ((nyb b0).1 : Int), BlockSize := (b1 : Int), SepTime := st }
            m b0 b1 b2 hraw hp, if_neg hn, hs]
  · exact ⟨f, some "Invalid Continuation Frame Length",
      InitFlowControl_bad_length nyb f m hraw hlen, rfl, fun _ => rfl,
      InitFlowControl_bad_length nyb f m hraw hlen⟩

/-- When a test of lines 124-129 fires, `getSFDL` returns that test's error. -/
theorem getSFDL_short_reject_eq (nyb : Nat → Nat × Nat) (f : PDU) (m : can.Message)
    (b0 : Nat) (rest : List Nat) (hraw : f.Raw = some m) (hp : m.Payload = b0 :: rest)
    (hbad : ¬ shortFormPasses (nyb b0).1 m) :
    getSFDL nyb f =
      .ok ({ f with Length := ((nyb b0).1 : Int) }, some (shortFormError (nyb b0).1 m)) := by
  unfold shortFormPasses at hbad
  push_neg at hbad
  obtain ⟨hn, hb⟩ := hbad
  have hl : m.Payload.length = rest.length + 1 := by simp [hp]
  by_cases h1 : (nyb b0).1 ≤ 7 ∧ (nyb b0).1 ≤ rest.length
  · have h2 : (nyb b0).1 = 7 ∧ m.IsExtended = true :=
      hb h1.1 (by omega)
    have he : shortFormError (nyb b0).1 m = "invalid length for extended frame" := by
      unfold shortFormError
      rw [if_neg (by omega)]
    rw [he]
    simp [getSFDL, deref, index, hraw, hp, bind, Except.bind, pure, Except.pure, h2]
    omega
  · have he : shortFormError (nyb b0).1 m = "invalid SF Data Length" := by
      unfold shortFormError
      rw [if_pos (by omega)]
    rw [he]
    simp [getSFDL, deref, index, hraw, hp, bind, Except.bind, pure, Except.pure, hn]
    intro a b
    exact absurd ⟨a, b⟩ h1

/-- On a one-byte payload with nibble 0, `getSFDL` returns the truncation error and
leaves the record as it was. -/
theorem getSFDL_one_byte_eq (nyb : Nat → Nat × Nat) (f : PDU) (m : can.Message)
    (b0 : Nat) (hraw : f.Raw = some m) (hp : m.Payload = [b0]) (hn : (nyb b0).1 = 0) :
    getSFDL nyb f = .ok (f, some "PDU length is longer than the data provided") := by
  simp [getSFDL, deref, index, hraw, hp, bind, Except.bind, pure, Except.pure, hn]

/-- The Single Frame parser without argument returns on every PDU whose message has a
non-empty payload; it writes `Length` and `Data` only (`Data` only on success), and
run again on the record it filled it returns the same record and error. -/
theorem InitSingleFrame_frame (nyb : Nat → Nat × Nat) (f : PDU) (m : can.Message)
    (b0 : Nat) (rest : List Nat) (hraw : f.Raw = some m) (hp : m.Payload = b0 :: rest) :
    ∃ f' e, InitSingleFrame nyb f none = .ok (f', e) ∧
      f' = { f with Length := f'.Length, Data := f'.Data } ∧
      (e ≠ none → f'.Data = f.Data) ∧
      InitSingleFrame nyb f' none = .ok (f', e) := by
  by_cases hpass : shortFormPasses (nyb b0).1 m
  · rcases rest with _ | ⟨v, tl⟩
    · have hn : (nyb b0).1 = 0 := by
        rcases hpass with h | ⟨_, h, _⟩
        · exact h
        · simp only [hp, List.length_singleton] at h
          omega
      have hg := getSFDL_one_byte_eq nyb f m b0 hraw hp hn
      exact ⟨f, _, InitSingleFrame_of_getSFDL_err nyb f f _ hg, rfl, fun _ => rfl,
        InitSingleFrame_of_getSFDL_err nyb f f _ hg⟩
    · cases hesc : escapeError v m with
      | some e =>
        have hg := getSFDL_escape nyb f m b0 v tl hraw hp hpass
        have hg2 := getSFDL_escape nyb { f with Length := (v : Int) } m b0 v tl hraw hp hpass
        rw [hesc] at hg hg2
        exact ⟨_, _, InitSingleFrame_of_getSFDL_err nyb f _ e hg, rfl, fun _ => rfl,
          InitSingleFrame_of_getSFDL_err nyb { f with Length := (v : Int) } _ e hg2⟩
      | none =>
        refine ⟨{ f with Length := (v : Int),
                         Data := m.Payload.drop (m.Payload.length - v) }, none,
          (InitSingleFrame_ok_iff nyb f _ m hraw).2 ⟨b0, v, tl, hp, hpass, hesc, rfl⟩,
          rfl, fun h => absurd rfl h,
          (InitSingleFrame_ok_iff nyb
            { f with Length := (v : Int), Data := m.Payload.drop (m.Payload.length - v) }
            _ m hraw).2 ⟨b0, v, tl, hp, hpass, hesc, rfl⟩⟩
  · have hg := getSFDL_short_reject_eq nyb f m b0 rest hraw hp hpass
    have hg2 := getSFDL_short_reject_eq nyb { f with Length := ((nyb b0).1 : Int) } m b0 rest
      hraw hp hpass
    exact ⟨_, _, InitSingleFrame_of_getSFDL_err nyb f _ _ hg, rfl, fun _ => rfl,
      InitSingleFrame_of_getSFDL_err nyb { f with Length := ((nyb b0).1 : Int) } _ _ hg2⟩

/-- The Consecutive Frame parser in closed form on a non-empty payload. -/
theorem InitContinuationFrame_eq (nyb : Nat → Nat × Nat) (f : PDU) (m : can.Message)
    (b0 : Nat) (rest : List Nat) (hraw : f.Raw = some m) (hp : m.Payload = b0 :: rest) :
    InitContinuationFrame nyb f =
      .ok ({ f with Index := ((nyb b0).2 : Int), Data := rest }, none) := by
  simp [InitContinuationFrame, deref, index, sliceFrom, hraw, hp, bind, Except.bind, pure,
    Except.pure]

/-- The bound and result of `getFFDL` depend on the record through `Raw` and `Length`
only. -/
theorem getFFDL_congr (parse : List Nat → Int → Except Panic (Int × Option String))
    (f g : PDU) (hr : g.Raw = f.Raw) (hl : g.Length = f.Length) :
    getFFDL parse g = getFFDL parse f := by
  simp only [getFFDL, hr, hl]

/-- The First Frame parser without argument in terms of `getFFDL`. -/
theorem InitFirstFrame_eq (nyb : Nat → Nat × Nat)
    (parse : List Nat → Int → Except Panic (Int × Option String))
    (f : PDU) (m : can.Message) (hraw : f.Raw = some m) :
    InitFirstFrame nyb parse f none =
      match getFFDL parse f with
      | .error x => .error x
      | .ok (_, some e) => .ok (f, some e)
      | .ok (off, none) =>
        (sliceFrom m.Payload off).map (fun d => ({ f with Data := d }, none)) := by
  simp only [InitFirstFrame, deref, hraw, bind, Except.bind, pure, Except.pure]
  cases getFFDL parse f with
  | error x => rfl
  | ok r =>
    obtain ⟨off, e⟩ := r
    cases e with
    | some e => rfl
    | none =>
      simp only
      cases sliceFrom m.Payload off <;> rfl

/-- When the First Frame parser without argument returns, it has written `Data` only
(and nothing on an error), and run again on the record it filled it returns the same
record and error. -/
theorem InitFirstFrame_frame (nyb : Nat → Nat × Nat)
    (parse : List Nat → Int → Except Panic (Int × Option String))
    (f f' : PDU) (e : Option String) (m : can.Message) (hraw : f.Raw = some m)
    (h : InitFirstFrame nyb parse f none = .ok (f', e)) :
    f' = { f with Data := f'.Data } ∧ (e ≠ none → f'.Data = f.Data) ∧
      InitFirstFrame nyb parse f' none = .ok (f', e) := by
  rw [InitFirstFrame_eq nyb parse f m hraw] at h
  cases hg : getFFDL parse f with
  | error x => simp [hg] at h
  | ok r =>
    obtain ⟨off, e1⟩ := r
    cases e1 with
    | some e1 =>
      simp only [hg, Except.ok.injEq, Prod.mk.injEq] at h
      obtain ⟨rfl, rfl⟩ := h
      refine ⟨rfl, fun _ => rfl, ?_⟩
      rw [InitFirstFrame_eq nyb parse f m hraw, hg]
    | none =>
      simp only [hg] at h
      cases hs : sliceFrom m.Payload off with
      | error x => simp [hs, Except.map] at h
      | ok d =>
        simp only [hs, Except.map, Except.ok.injEq, Prod.mk.injEq] at h
        obtain ⟨rfl, rfl⟩ := h
        refine ⟨rfl, fun h => absurd rfl h, ?_⟩
        have hg2 : getFFDL parse { f with Data := d } = .ok (off, none) :=
          (getFFDL_congr parse { f with Data := d } f rfl rfl).trans hg
        rw [InitFirstFrame_eq nyb parse { f with Data := d } m hraw]
        simp only [hg2, hs, Except.map]

/-- What a returning `Init` has done, by the type nibble t = `bits.GetNybble(payload[0])[1]`:
the payload is non-empty, `Raw` refers to the message, `Type` is set, the parser of
the type has written its own fields only, and `Init` run again on the record returns
the same record and error. -/
theorem Init_cases (nyb : Nat → Nat × Nat)
    (parse : List Nat → Int → Except Panic (Int × Option String))
    (f f' : PDU) (m : can.Message) (e : Option String)
    (h : Init nyb parse f m = .ok (f', e)) :
    ∃ b0 rest, m.Payload = b0 :: rest ∧ f'.Raw = some m ∧
      Init nyb parse f' m = .ok (f', e) ∧
      ((4 ≤ (nyb b0).2 ∧ e = some "Invalid ISOTP type" ∧
          f' = { f with Raw := some m, Type_ := -1 }) ∨
       ((nyb b0).2 = 3 ∧ (e ≠ none → f'.SepTime = f.SepTime) ∧
          f' = { f with Raw := some m, Type_ := FC, Flag := f'.Flag,
                        BlockSize := f'.BlockSize, SepTime := f'.SepTime }) ∨
       ((nyb b0).2 = 2 ∧ e = none ∧
          f' = { f with Raw := some m, Type_ := CF, Index := f'.Index, Data := f'.Data }) ∨
       ((nyb b0).2 = 1 ∧ (e ≠ none → f'.Data = f.Data) ∧
          f' = { f with Raw := some m, Type_ := FF, Data := f'.Data }) ∨
       ((nyb b0).2 = 0 ∧ (e ≠ none → f'.Data = f.Data) ∧
          f' = { f with Raw := some m, Type_ := SF, Length := f'.Length,
                        Data := f'.Data })) := by
  rcases hp : m.Payload with _ | ⟨b0, rest⟩
  · simp [Init, GetType, deref, index, hp, bind, Except.bind] at h
  refine ⟨b0, rest, rfl, ?_⟩
  have hI := Init_eq nyb parse f m b0 rest hp
  have hI2 := Init_eq nyb parse f' m b0 rest hp
  by_cases h3 : (nyb b0).2 = 3
  · simp only [h3, if_true] at hI hI2
    obtain ⟨g, e1, hg, hfr, hst, hid⟩ :=
      InitFlowControl_frame nyb { f with Raw := some m, Type_ := FC } m rfl
    rw [hI, hg] at h
    simp only [Except.ok.injEq, Prod.mk.injEq] at h
    obtain ⟨rfl, rfl⟩ := h
    have hself : ({ g with Raw := some m, Type_ := FC } : PDU) = g := by rw [hfr]
    refine ⟨by rw [hfr], ?_, Or.inr (Or.inl ⟨h3, hst, hfr⟩)⟩
    rw [hI2, hself, hid]
  by_cases h2 : (nyb b0).2 = 2
  · simp only [h2, if_true, show ¬ (2 : Nat) = 3 by decide, if_false] at hI hI2
    rw [hI, InitContinuationFrame_eq nyb _ m b0 rest rfl hp] at h
    simp only [Except.ok.injEq, Prod.mk.injEq] at h
    obtain ⟨rfl, rfl⟩ := h
    refine ⟨rfl, ?_, Or.inr (Or.inr (Or.inl ⟨h2, rfl, rfl⟩))⟩
    rw [hI2, InitContinuationFrame_eq nyb _ m b0 rest rfl hp]
  by_cases h1 : (nyb b0).2 = 1
  · simp only [h1, if_true, show ¬ (1 : Nat) = 3 by decide, show ¬ (1 : Nat) = 2 by decide,
      if_false] at hI hI2
    rw [hI] at h
    obtain ⟨hfr, hd, hid⟩ :=
      InitFirstFrame_frame nyb parse { f with Raw := some m, Type_ := FF } f' e m rfl h
    have hself : ({ f' with Raw := some m, Type_ := FF } : PDU) = f' := by rw [hfr]
    refine ⟨by rw [hfr], ?_, Or.inr (Or.inr (Or.inr (Or.inl ⟨h1, hd, hfr⟩)))⟩
    rw [hI2, hself, hid]
  by_cases h0 : (nyb b0).2 = 0
  · simp only [h0, if_true, show ¬ (0 : Nat) = 3 by decide, show ¬ (0 : Nat) = 2 by decide,
      show ¬ (0 : Nat) = 1 by decide, if_false] at hI hI2
    obtain ⟨g, e1, hg, hfr, hd, hid⟩ :=
      InitSingleFrame_frame nyb { f with Raw := some m, Type_ := SF } m b0 rest rfl hp
    rw [hI, hg] at h
    simp only [Except.ok.injEq, Prod.mk.injEq] at h
    obtain ⟨rfl, rfl⟩ := h
    have hself : ({ g with Raw := some m, Type_ := SF } : PDU) = g := by rw [hfr]
    refine ⟨by rw [hfr], ?_, Or.inr (Or.inr (Or.inr (Or.inr ⟨h0, hd, hfr⟩)))⟩
    rw [hI2, hself, hid]
  · simp only [h3, h2, h1, h0, if_false] at hI hI2
    rw [hI] at h
    simp only [Except.ok.injEq, Prod.mk.injEq] at h
    obtain ⟨rfl, rfl⟩ := h
    exact ⟨rfl, by rw [hI2], Or.inl ⟨by omega, rfl, rfl⟩⟩

/-- C13 as the code has it, counter to the claim: three failing decodes with
`GetNybble`.  On a fresh record the Single Frame `[0x00, 0x05, 1, 2, 3, 4, 5]` fails
with `Length` = 5, written by the failed attempt; the Flow Control frame
`[0x13, 0x08, 0x80]` fails on its separation time with `Flag` = 1 and `BlockSize` = 8
already written and `Length` = 0; and on a record filled by an earlier decode the
invalid frame `[0x04]` fails with every field of that decode still in place.  No
field has one value on all failures. -/
theorem Init_failure_counterexample :
    Init GetNybble (parseFFLength GetNybble) freshPDU (stdMsg [0x00, 0x05, 1, 2, 3, 4, 5]) =
      .ok ({ pduOf (stdMsg [0x00, 0x05, 1, 2, 3, 4, 5]) with Type_ := SF, Length := 5 },
        some "invalid extended FF length") ∧
    Init GetNybble (parseFFLength GetNybble) freshPDU (stdMsg [0x13, 0x08, 0x80]) =
      .ok ({ pduOf (stdMsg [0x13, 0x08, 0x80]) with
              Type_ := FC, Flag := 1, BlockSize := 8, Length := 0 },
        some "Invalid ST Min value") ∧
    Init GetNybble (parseFFLength GetNybble)
        { Type_ := SF, Flag := Wait, Length := 6, Data := [1, 2, 3, 4, 5, 6], Raw := none,
          Index := 3, BlockSize := 8, SepTime := 127 * Millisecond }
        (stdMsg [0x04]) =
      .ok ({ Type_ := -1, Flag := Wait, Length := 6, Data := [1, 2, 3, 4, 5, 6],
             Raw := some (stdMsg [0x04]), Index := 3, BlockSize := 8,
             SepTime := 127 * Millisecond },
        some "Invalid ISOTP type") :=
  ⟨rfl, rfl, rfl⟩

/-- C13 amended: when `Init` returns an error no field is reset.  `Data`, `Index` and
`SepTime` hold the values they had before the call; `Length` holds its earlier value
unless the frame classified as a Single Frame; `Flag` and `BlockSize` hold their
earlier values unless the frame classified as Flow Control. -/
theorem Init_error_fields (nyb : Nat → Nat × Nat)
    (parse : List Nat → Int → Except Panic (Int × Option String))
    (f f' : PDU) (m : can.Message) (e : String)
    (h : Init nyb parse f m = .ok (f', some e)) :
    f'.Data = f.Data ∧ f'.Index = f.Index ∧ f'.SepTime = f.SepTime ∧
    (f'.Type_ ≠ SF → f'.Length = f.Length) ∧
    (f'.Type_ ≠ FC → f'.Flag = f.Flag ∧ f'.BlockSize = f.BlockSize) := by
  obtain ⟨b0, rest, _, _, _, hc⟩ := Init_cases nyb parse f f' m (some e) h
  have hne : (some e : Option String) ≠ none := by simp
  rcases hc with ⟨_, _, hf⟩ | ⟨_, hst, hf⟩ | ⟨_, he, _⟩ | ⟨_, hd, hf⟩ | ⟨_, hd, hf⟩
  · rw [hf]
    simp
  · refine ⟨by rw [hf], by rw [hf], hst hne, fun _ => by rw [hf], fun ht => ?_⟩
    exact absurd (by rw [hf]) ht
  · exact absurd he hne
  · exact ⟨hd hne, by rw [hf], by rw [hf], fun _ => by rw [hf],
      fun _ => ⟨by rw [hf], by rw [hf]⟩⟩
  · refine ⟨hd hne, by rw [hf], by rw [hf], fun ht => ?_, fun _ => ⟨by rw [hf], by rw [hf]⟩⟩
    exact absurd (by rw [hf]) ht

/-- C13 amended, at the failing Flow Control frame `[0x13, 0x08, 0x80]` decoded into a
record that holds an earlier Single Frame: `Data`, `Index`, `SepTime` and `Length`
are those of the earlier decode. -/
theorem Init_error_fields_witness :
    Init GetNybble (parseFFLength GetNybble)
        { Type_ := SF, Flag := 0, Length := 6, Data := [1, 2, 3, 4, 5, 6], Raw := none,
          Index := 3, BlockSize := 0, SepTime := 127 * Millisecond }
        (stdMsg [0x13, 0x08, 0x80]) =
      .ok ({ Type_ := FC, Flag := 1, Length := 6, Data := [1, 2, 3, 4, 5, 6],
             Raw := some (stdMsg [0x13, 0x08, 0x80]), Index := 3, BlockSize := 8,
             SepTime := 127 * Millisecond },
        some "Invalid ST Min value") ∧
    ([1, 2, 3, 4, 5, 6] : List Nat) = [1, 2, 3, 4, 5, 6] ∧ (3 : Int) = 3 ∧
    (127 * Millisecond : Int) = 127 * Millisecond ∧ (FC ≠ SF → (6 : Int) = 6) ∧
    (FC ≠ FC → (1 : Int) = 0 ∧ (8 : Int) = 0) :=
  ⟨rfl, Init_error_fields GetNybble (parseFFLength GetNybble)
      { Type_ := SF, Flag := 0, Length := 6, Data := [1, 2, 3, 4, 5, 6], Raw := none,
        Index := 3, BlockSize := 0, SepTime := 127 * Millisecond }
      { Type_ := FC, Flag := 1, Length := 6, Data := [1, 2, 3, 4, 5, 6],
        Raw := some (stdMsg [0x13, 0x08, 0x80]), Index := 3, BlockSize := 8,
        SepTime := 127 * Millisecond }
      (stdMsg [0x13, 0x08, 0x80]) "Invalid ST Min value" rfl⟩

/-- C14 as the code has it, counter to the claim: with `GetNybble`, the Flow Control
frame `[0x13, 0x08, 0x7F]` is decoded into a fresh record and then the Single Frame
`[0x00, 0x06, 1, 2, 3, 4, 5, 6]` into the same record.  Both return no error, and
after the second `Flag` = 1, `BlockSize` = 8 and `SepTime` = 127 ms of the Flow
Control frame are still in place; decoded into a fresh record the same Single Frame
has them at 0. -/
theorem Init_stale_fields_counterexample :
    Init GetNybble (parseFFLength GetNybble) freshPDU (stdMsg [0x13, 0x08, 0x7F]) =
      .ok ({ pduOf (stdMsg [0x13, 0x08, 0x7F]) with
              Type_ := FC, Flag := 1, BlockSize := 8, SepTime := 127 * Millisecond },
        none) ∧
    Init GetNybble (parseFFLength GetNybble)
        { pduOf (stdMsg [0x13, 0x08, 0x7F]) with
            Type_ := FC, Flag := 1, BlockSize := 8, SepTime := 127 * Millisecond }
        (stdMsg [0x00, 0x06, 1, 2, 3, 4, 5, 6]) =
      .ok ({ Type_ := SF, Flag := 1, Length := 6, Data := [1, 2, 3, 4, 5, 6],
             Raw := some (stdMsg [0x00, 0x06, 1, 2, 3, 4, 5, 6]), Index := 0,
             BlockSize := 8, SepTime := 127 * Millisecond }, none) ∧
    Init GetNybble (parseFFLength GetNybble) freshPDU
        (stdMsg [0x00, 0x06, 1, 2, 3, 4, 5, 6]) =
      .ok ({ Type_ := SF, Flag := 0, Length := 6, Data := [1, 2, 3, 4, 5, 6],
             Raw := some (stdMsg [0x00, 0x06, 1, 2, 3, 4, 5, 6]), Index := 0,
             BlockSize := 0, SepTime := 0 }, none) :=
  ⟨rfl, rfl, rfl⟩

/-- C14 amended: when `Init` returns no error, `Type` is one of `SF`, `FF`, `CF`, `FC`
and each field that does not belong to that type holds the value it had before the
call: `Flag`, `BlockSize` and `SepTime` for a Single, First or Consecutive Frame,
`Index` for a frame that is not a Consecutive Frame, `Length` for a Flow Control
frame. -/
theorem Init_success_fields (nyb : Nat → Nat × Nat)
    (parse : List Nat → Int → Except Panic (Int × Option String))
    (f f' : PDU) (m : can.Message) (h : Init nyb parse f m = .ok (f', none)) :
    (f'.Type_ = SF ∨ f'.Type_ = FF ∨ f'.Type_ = CF ∨ f'.Type_ = FC) ∧
    (f'.Type_ = SF ∨ f'.Type_ = FF ∨ f'.Type_ = CF →
      f'.Flag = f.Flag ∧ f'.BlockSize = f.BlockSize ∧ f'.SepTime = f.SepTime) ∧
    (f'.Type_ ≠ CF → f'.Index = f.Index) ∧
    (f'.Type_ = FC → f'.Length = f.Length) := by
  obtain ⟨b0, rest, _, _, _, hc⟩ := Init_cases nyb parse f f' m none h
  rcases hc with ⟨_, he, _⟩ | ⟨_, _, hf⟩ | ⟨_, _, hf⟩ | ⟨_, _, hf⟩ | ⟨_, _, hf⟩
  · simp at he
  · have ht : f'.Type_ = FC := by rw [hf]
    refine ⟨Or.inr (Or.inr (Or.inr ht)), fun hh => ?_, fun _ => by rw [hf],
      fun _ => by rw [hf]⟩
    rw [ht] at hh
    simp [SF, FF, CF, FC] at hh
  · have ht : f'.Type_ = CF := by rw [hf]
    refine ⟨Or.inr (Or.inr (Or.inl ht)),
      fun _ => ⟨by rw [hf], by rw [hf], by rw [hf]⟩, fun hh => absurd ht hh, fun hh => ?_⟩
    rw [ht] at hh
    simp [CF, FC] at hh
  · have ht : f'.Type_ = FF := by rw [hf]
    refine ⟨Or.inr (Or.inl ht),
      fun _ => ⟨by rw [hf], by rw [hf], by rw [hf]⟩, fun _ => by rw [hf], fun hh => ?_⟩
    rw [ht] at hh
    simp [FF, FC] at hh
  · have ht : f'.Type_ = SF := by rw [hf]
    refine ⟨Or.inl ht,
      fun _ => ⟨by rw [hf], by rw [hf], by rw [hf]⟩, fun _ => by rw [hf], fun hh => ?_⟩
    rw [ht] at hh
    simp [SF, FC] at hh

/-- C14 amended, at the Single Frame `[0x00, 0x06, 1, 2, 3, 4, 5, 6]` decoded into the
record that holds the Flow Control frame `[0x13, 0x08, 0x7F]`: `Type` is `SF`, and
`Flag`, `BlockSize`, `SepTime` and `Index` are those the record held. -/
theorem Init_success_fields_witness :
    Init GetNybble (parseFFLength GetNybble)
        { pduOf (stdMsg [0x13, 0x08, 0x7F]) with
            Type_ := FC, Flag := 1, BlockSize := 8, SepTime := 127 * Millisecond }
        (stdMsg [0x00, 0x06, 1, 2, 3, 4, 5, 6]) =
      .ok ({ Type_ := SF, Flag := 1, Length := 6, Data := [1, 2, 3, 4, 5, 6],
             Raw := some (stdMsg [0x00, 0x06, 1, 2, 3, 4, 5, 6]), Index := 0,
             BlockSize := 8, SepTime := 127 * Millisecond }, none) ∧
    ((SF = SF ∨ SF = FF ∨ SF = CF) →
      (1 : Int) = 1 ∧ (8 : Int) = 8 ∧ (127 * Millisecond : Int) = 127 * Millisecond) :=
  ⟨rfl, (Init_success_fields GetNybble (parseFFLength GetNybble)
      { pduOf (stdMsg [0x13, 0x08, 0x7F]) with
          Type_ := FC, Flag := 1, BlockSize := 8, SepTime := 127 * Millisecond }
      { Type_ := SF, Flag := 1, Length := 6, Data := [1, 2, 3, 4, 5, 6],
        Raw := some (stdMsg [0x00, 0x06, 1, 2, 3, 4, 5, 6]), Index := 0,
        BlockSize := 8, SepTime := 127 * Millisecond }
      (stdMsg [0x00, 0x06, 1, 2, 3, 4, 5, 6]) rfl).2.1⟩

/-- C16: decode idempotence.  Whatever record the first decode starts from (a fresh one
included), when `Init` on the message m returns a record and an error outcome,
`Init` on m run again on that record returns the same record, field for field
(`Type`, `Length`, `Data`, `Flag`, `Index`, `BlockSize`, `SepTime`, `Raw`), and the
same error outcome.  A second decode on another fresh record is the same function
applied to the same arguments. -/
theorem Init_idempotent (nyb : Nat → Nat × Nat)
    (parse : List Nat → Int → Except Panic (Int × Option String))
    (f f' : PDU) (m : can.Message) (e : Option String)
    (h : Init nyb parse f m = .ok (f', e)) :
    Init nyb parse f' m = .ok (f', e) := by
  obtain ⟨_, _, _, _, hid, _⟩ := Init_cases nyb parse f f' m e h
  exact hid

/-- C16 at concrete messages with `GetNybble`, first decode on a fresh record: a Flow
Control frame, a Single Frame that fails after writing `Length`, and a
Consecutive Frame. -/
theorem Init_idempotent_witness :
    (Init GetNybble (parseFFLength GetNybble) freshPDU (stdMsg [0x13, 0x08, 0x7F]) =
      .ok ({ pduOf (stdMsg [0x13, 0x08, 0x7F]) with
              Type_ := FC, Flag := 1, BlockSize := 8, SepTime := 127 * Millisecond },
        none) ∧
     Init GetNybble (parseFFLength GetNybble)
        { pduOf (stdMsg [0x13, 0x08, 0x7F]) with
            Type_ := FC, Flag := 1, BlockSize := 8, SepTime := 127 * Millisecond }
        (stdMsg [0x13, 0x08, 0x7F]) =
      .ok ({ pduOf (stdMsg [0x13, 0x08, 0x7F]) with
              Type_ := FC, Flag := 1, BlockSize := 8, SepTime := 127 * Millisecond },
        none)) ∧
    (Init GetNybble (parseFFLength GetNybble) freshPDU (stdMsg [0x00, 0x05, 1, 2, 3, 4, 5]) =
      .ok ({ pduOf (stdMsg [0x00, 0x05, 1, 2, 3, 4, 5]) with Type_ := SF, Length := 5 },
        some "invalid extended FF length") ∧
     Init GetNybble (parseFFLength GetNybble)
        { pduOf (stdMsg [0x00, 0x05, 1, 2, 3, 4, 5]) with Type_ := SF, Length := 5 }
        (stdMsg [0x00, 0x05, 1, 2, 3, 4, 5]) =
      .ok ({ pduOf (stdMsg [0x00, 0x05, 1, 2, 3, 4, 5]) with Type_ := SF, Length := 5 },
        some "invalid extended FF length")) ∧
    (Init GetNybble (parseFFLength GetNybble) freshPDU (stdMsg [0x32, 0xA1, 0xA2, 0xA3]) =
      .ok ({ pduOf (stdMsg [0x32, 0xA1, 0xA2, 0xA3]) with
              Type_ := CF, Index := 2, Data := [0xA1, 0xA2, 0xA3] }, none) ∧
     Init GetNybble (parseFFLength GetNybble)
        { pduOf (stdMsg [0x32, 0xA1, 0xA2, 0xA3]) with
            Type_ := CF, Index := 2, Data := [0xA1, 0xA2, 0xA3] }
        (stdMsg [0x32, 0xA1, 0xA2, 0xA3]) =
      .ok ({ pduOf (stdMsg [0x32, 0xA1, 0xA2, 0xA3]) with
              Type_ := CF, Index := 2, Data := [0xA1, 0xA2, 0xA3] }, none)) :=
  ⟨⟨rfl, Init_idempotent GetNybble (parseFFLength GetNybble) freshPDU _
      (stdMsg [0x13, 0x08, 0x7F]) none rfl⟩,
   ⟨rfl, Init_idempotent GetNybble (parseFFLength GetNybble) freshPDU _
      (stdMsg [0x00, 0x05, 1, 2, 3, 4, 5]) (some "invalid extended FF length") rfl⟩,
   ⟨rfl, Init_idempotent GetNybble (parseFFLength GetNybble) freshPDU _
      (stdMsg [0x32, 0xA1, 0xA2, 0xA3]) none rfl⟩⟩

/-- C19: on a message with a non-empty payload whose type nibble selects a Single Frame
(0) or a Flow Control frame (3), `Init` returns, with or without an error: no index
or slice expression it evaluates is out of range (an out-of-range `payload[i]` or
`payload[off:]` is a panic, and there is none).  When a Single Frame decodes without
error the data offset payload size - `Length` lies in 0..payload size and `Data` is
the slice from it. -/
theorem Init_SF_FC_returns (nyb : Nat → Nat × Nat)
    (parse : List Nat → Int → Except Panic (Int × Option String))
    (f : PDU) (m : can.Message) (b0 : Nat) (rest : List Nat) (hp : m.Payload = b0 :: rest)
    (ht : (nyb b0).2 = 0 ∨ (nyb b0).2 = 3) :
    (∃ f' e, Init nyb parse f m = .ok (f', e)) ∧
    (∀ f', (nyb b0).2 = 0 → Init nyb parse f m = .ok (f', none) →
      0 ≤ (m.Payload.length : Int) - f'.Length ∧
      (m.Payload.length : Int) - f'.Length ≤ (m.Payload.length : Int) ∧
      sliceFrom m.Payload ((m.Payload.length : Int) - f'.Length) = .ok f'.Data) := by
  have hI := Init_eq nyb parse f m b0 rest hp
  refine ⟨?_, ?_⟩
  · rcases ht with h0 | h3
    · simp only [h0, if_true, show ¬ (0 : Nat) = 3 by decide, show ¬ (0 : Nat) = 2 by decide,
        show ¬ (0 : Nat) = 1 by decide, if_false] at hI
      obtain ⟨g, e, hg, _⟩ :=
        InitSingleFrame_frame nyb { f with Raw := some m, Type_ := SF } m b0 rest rfl hp
      exact ⟨g, e, hI.trans hg⟩
    · simp only [h3, if_true] at hI
      obtain ⟨g, e, hg, _⟩ :=
        InitFlowControl_frame nyb { f with Raw := some m, Type_ := FC } m rfl
      exact ⟨g, e, hI.trans hg⟩
  · intro f' h0 h
    simp only [h0, if_true, show ¬ (0 : Nat) = 3 by decide, show ¬ (0 : Nat) = 2 by decide,
      show ¬ (0 : Nat) = 1 by decide, if_false] at hI
    rw [hI] at h
    obtain ⟨_, h1, h2, h3, _⟩ :=
      InitSingleFrame_none_slice nyb { f with Raw := some m, Type_ := SF } f' m rfl h
    refine ⟨h1, h2, ?_⟩
    simp only [sliceFrom, h1, h2, and_self, if_true, h3]

/-- C19 at concrete messages with `GetNybble`: the one-byte Single Frame `[0x00]` and the
two-byte Flow Control frame `[0x03, 0x08]` return errors without reading beyond the
payload, and the Single Frame `[0x00, 0x06, 1, 2, 3, 4, 5, 6]` decodes at offset 2. -/
theorem Init_SF_FC_returns_witness :
    Init GetNybble (parseFFLength GetNybble) freshPDU (stdMsg [0x00]) =
      .ok ({ pduOf (stdMsg [0x00]) with Type_ := SF },
        some "PDU length is longer than the data provided") ∧
    Init GetNybble (parseFFLength GetNybble) freshPDU (stdMsg [0x03, 0x08]) =
      .ok ({ pduOf (stdMsg [0x03, 0x08]) with Type_ := FC },
        some "Invalid Continuation Frame Length") ∧
    (∃ f' e, Init GetNybble (parseFFLength GetNybble) freshPDU
        (stdMsg [0x00, 0x06, 1, 2, 3, 4, 5, 6]) = .ok (f', e)) :=
  ⟨rfl, rfl,
   (Init_SF_FC_returns GetNybble (parseFFLength GetNybble) freshPDU
      (stdMsg [0x00, 0x06, 1, 2, 3, 4, 5, 6]) 0x00 [0x06, 1, 2, 3, 4, 5, 6] rfl
      (Or.inl (by decide))).1⟩

/-- A successful `getSFDL` has passed the escape-form tests and set `Length` to byte 1. -/
theorem getSFDL_ok (nyb : Nat → Nat × Nat) (f f' : PDU) (m : can.Message)
    (hraw : f.Raw = some m) (h : getSFDL nyb f = .ok (f', none)) :
    ∃ b0 v tl, m.Payload = b0 :: v :: tl ∧ escapeError v m = none ∧
      f' = { f with Length := (v : Int) } := by
  rcases hp : m.Payload with _ | ⟨b0, rest⟩
  · simp [getSFDL, deref, index, hraw, hp, bind, Except.bind] at h
  by_cases hpass : shortFormPasses (nyb b0).1 m
  · rcases rest with _ | ⟨v, tl⟩
    · obtain ⟨g, e, hg⟩ := getSFDL_one_byte nyb f m b0 hraw hp
      rw [hg] at h
      simp at h
    · rw [getSFDL_escape nyb f m b0 v tl hraw hp hpass] at h
      simp only [Except.ok.injEq, Prod.mk.injEq] at h
      exact ⟨b0, v, tl, rfl, h.2, h.1.symm⟩
  · rw [getSFDL_short_reject_eq nyb f m b0 rest hraw hp hpass] at h
    simp at h

/-- C20: whenever `getSFDL`, or `InitSingleFrame` with or without a payload argument,
returns no error, whatever the length nibble of byte 0 is, the payload (that of the
message `Raw` then refers to) has at least two bytes, `Length` equals its byte 1, and
6 ≤ `Length` ≤ payload size - 2; so the payload has at least 8 bytes, and no payload
shorter than 8 bytes is accepted as a Single Frame. -/
theorem SingleFrame_accepts_escape_only (nyb : Nat → Nat × Nat) (f f' : PDU)
    (b : Option (List Nat))
    (h : getSFDL nyb f = .ok (f', none) ∨ InitSingleFrame nyb f b = .ok (f', none)) :
    ∃ m b0 v tl, f'.Raw = some m ∧ m.Payload = b0 :: v :: tl ∧ f'.Length = (v : Int) ∧
      6 ≤ v ∧ (v : Int) ≤ (m.Payload.length : Int) - 2 ∧ 8 ≤ m.Payload.length := by
  have key : ∀ g g' : PDU, ∀ m : can.Message, g.Raw = some m →
      (getSFDL nyb g = .ok (g', none) ∨ InitSingleFrame nyb g none = .ok (g', none)) →
      ∃ m b0 v tl, g'.Raw = some m ∧ m.Payload = b0 :: v :: tl ∧ g'.Length = (v : Int) ∧
        6 ≤ v ∧ (v : Int) ≤ (m.Payload.length : Int) - 2 ∧ 8 ≤ m.Payload.length := by
    intro g g' m hraw hh
    rcases hh with hh | hh
    · obtain ⟨b0, v, tl, hp, hesc, hg⟩ := getSFDL_ok nyb g g' m hraw hh
      have hb := (escapeError_eq_none v m).1 hesc
      refine ⟨m, b0, v, tl, by rw [hg]; exact hraw, hp, by rw [hg], hb.1, hb.2.2, ?_⟩
      omega
    · obtain ⟨b0, v, tl, hp, _, hesc, hg⟩ := (InitSingleFrame_ok_iff nyb g g' m hraw).1 hh
      have hb := (escapeError_eq_none v m).1 hesc
      refine ⟨m, b0, v, tl, by rw [hg]; exact hraw, hp, by rw [hg], hb.1, hb.2.2, ?_⟩
      omega
  cases hraw : f.Raw with
  | none =>
    rcases h with h | h
    · simp [getSFDL, deref, hraw, bind, Except.bind] at h
    · cases b <;>
        simp [InitSingleFrame, getSFDL, deref, hraw, bind, Except.bind, pure,
          Except.pure] at h
  | some m =>
    rcases h with h | h
    · exact key f f' m hraw (Or.inl h)
    · cases b with
      | none => exact key f f' m hraw (Or.inr h)
      | some p =>
        rw [InitSingleFrame_some nyb f m p hraw] at h
        cases hg : GetType nyb { f with Raw := some { m with Payload := p } } with
        | error x => simp [hg] at h
        | ok r =>
          obtain ⟨f1, t, e⟩ := r
          cases e with
          | some e => simp [hg] at h
          | none =>
            simp only [hg] at h
            obtain ⟨t', ht⟩ := GetType_frame nyb _ f1 t none hg
            have hraw1 : f1.Raw = some { m with Payload := p } := by rw [ht]
            exact key f1 f' _ hraw1 (Or.inr h)

/-- C20 at concrete payloads with the nibbles low first (the order in which byte 0 = 0x07
is a Single Frame with length nibble 7): the 8-byte `[0x07, 6, 1, 2, 3, 4, 5, 6]` is
accepted with `Length` = byte 1 = 6, and the 4-byte `[0x03, 0xAA, 0xBB, 0xCC]`, a
well-formed short Single Frame, is refused. -/
theorem SingleFrame_accepts_escape_only_witness :
    InitSingleFrame (fun b => (b % 16, b / 16))
        (pduOf (stdMsg [0x07, 6, 1, 2, 3, 4, 5, 6])) none =
      .ok ({ pduOf (stdMsg [0x07, 6, 1, 2, 3, 4, 5, 6]) with
              Length := 6, Data := [1, 2, 3, 4, 5, 6] }, none) ∧
    (∃ m b0 v tl,
      ({ pduOf (stdMsg [0x07, 6, 1, 2, 3, 4, 5, 6]) with
          Length := 6, Data := [1, 2, 3, 4, 5, 6] } : PDU).Raw = some m ∧
      m.Payload = b0 :: v :: tl ∧ (6 : Int) = (v : Int) ∧
      6 ≤ v ∧ (v : Int) ≤ (m.Payload.length : Int) - 2 ∧ 8 ≤ m.Payload.length) ∧
    InitSingleFrame (fun b => (b % 16, b / 16))
        (pduOf (stdMsg [0x03, 0xAA, 0xBB, 0xCC])) none =
      .ok ({ pduOf (stdMsg [0x03, 0xAA, 0xBB, 0xCC]) with Length := 0xAA },
        some "invalid SF Data Length") :=
  ⟨rfl,
   SingleFrame_accepts_escape_only (fun b => (b % 16, b / 16))
     (pduOf (stdMsg [0x07, 6, 1, 2, 3, 4, 5, 6]))
     { pduOf (stdMsg [0x07, 6, 1, 2, 3, 4, 5, 6]) with
         Length := 6, Data := [1, 2, 3, 4, 5, 6] } none (Or.inr rfl),
   rfl⟩

/-- The flag reader leaves `Raw` as it was. -/
theorem GetFlag_raw (nyb : Nat → Nat × Nat) (f f1 : PDU) (t : Int) (e : Option String)
    (h : GetFlag nyb f = .ok (f1, t, e)) : f1.Raw = f.Raw := by
  unfold GetFlag at h
  cases hr : deref f.Raw with
  | error x => simp [hr, bind, Except.bind] at h
  | ok m =>
    cases hi : index m.Payload 0 with
    | error x => simp [hr, hi, bind, Except.bind] at h
    | ok b0 =>
      simp only [hr, hi, bind, Except.bind, pure, Except.pure] at h
      split_ifs at h
      · simp only [Except.ok.injEq, Prod.mk.injEq] at h
        rw [← h.1]
      · simp only [Except.ok.injEq, Prod.mk.injEq] at h
        rw [← h.1]

/-- The separation-time reader leaves `Raw` as it was. -/
theorem GetSTMin_raw (f f1 : PDU) (t : Int) (e : Option String)
    (h : GetSTMin f = .ok (f1, t, e)) : f1.Raw = f.Raw := by
  unfold GetSTMin at h
  cases hr : deref f.Raw with
  | error x => simp [hr, bind, Except.bind] at h
  | ok m =>
    cases hi : index m.Payload 2 with
    | error x => simp [hr, hi, bind, Except.bind] at h
    | ok b2 =>
      simp only [hr, hi, bind, Except.bind, pure, Except.pure] at h
      split_ifs at h
      · simp only [Except.ok.injEq, Prod.mk.injEq] at h
        rw [← h.1]
      · simp only [Except.ok.injEq, Prod.mk.injEq] at h
        rw [← h.1]
      · simp only [Except.ok.injEq, Prod.mk.injEq] at h
        rw [← h.1]

/-- The Single Frame parser without argument leaves `Raw` as it was. -/
theorem InitSingleFrame_none_raw (nyb : Nat → Nat × Nat) (f f' : PDU) (e : Option String)
    (h : InitSingleFrame nyb f none = .ok (f', e)) : f'.Raw = f.Raw := by
  cases hraw : f.Raw with
  | none =>
    simp [InitSingleFrame, getSFDL, deref, hraw, bind, Except.bind, pure, Except.pure] at h
  | some m =>
    rcases hp : m.Payload with _ | ⟨b0, rest⟩
    · simp [InitSingleFrame, getSFDL, deref, index, hraw, hp, bind, Except.bind, pure,
        Except.pure] at h
    · obtain ⟨g, e1, hg, hfr, _⟩ := InitSingleFrame_frame nyb f m b0 rest hraw hp
      rw [hg] at h
      simp only [Except.ok.injEq, Prod.mk.injEq] at h
      rw [← h.1, hfr]
      exact hraw

/-- The First Frame parser without argument leaves `Raw` as it was. -/
theorem InitFirstFrame_none_raw (nyb : Nat → Nat × Nat)
    (parse : List Nat → Int → Except Panic (Int × Option String))
    (f f' : PDU) (e : Option String)
    (h : InitFirstFrame nyb parse f none = .ok (f', e)) : f'.Raw = f.Raw := by
  cases hraw : f.Raw with
  | none =>
    simp [InitFirstFrame, getFFDL, deref, hraw, bind, Except.bind, pure, Except.pure] at h
  | some m =>
    obtain ⟨hfr, _⟩ := InitFirstFrame_frame nyb parse f f' e m hraw h
    rw [hfr]
    exact hraw

/-- The Flow Control parser without argument leaves `Raw` as it was. -/
theorem InitFlowControl_none_raw (nyb : Nat → Nat × Nat) (f f' : PDU) (e : Option String)
    (h : InitFlowControl nyb f none = .ok (f', e)) : f'.Raw = f.Raw := by
  cases hraw : f.Raw with
  | none =>
    simp [InitFlowControl, deref, hraw, bind, Except.bind, pure, Except.pure] at h
  | some m =>
    obtain ⟨g, e1, hg, hfr, _⟩ := InitFlowControl_frame nyb f m hraw
    rw [hg] at h
    simp only [Except.ok.injEq, Prod.mk.injEq] at h
    rw [← h.1, hfr]
    exact hraw

/-- With a payload argument, `InitFirstFrame` stores it, classifies, and on a valid type
goes on as the call without argument does. -/
theorem InitFirstFrame_some (nyb : Nat → Nat × Nat)
    (parse : List Nat → Int → Except Panic (Int × Option String))
    (f : PDU) (m : can.Message) (p : List Nat) (hraw : f.Raw = some m) :
    InitFirstFrame nyb parse f (some p) =
      match GetType nyb { f with Raw := some { m with Payload := p } } with
      | .error x => .error x
      | .ok (f1, _, some e) => .ok (f1, some e)
      | .ok (f1, _, none) => InitFirstFrame nyb parse f1 none := by
  simp only [InitFirstFrame, deref, hraw, bind, Except.bind, pure, Except.pure]
  cases GetType nyb { f with Raw := some { m with Payload := p } } with
  | error x => rfl
  | ok r =>
    obtain ⟨f1, t, e⟩ := r
    cases e <;> rfl

/-- With a payload argument of 3 bytes, `InitFlowControl` stores it, classifies, and on a
valid type goes on as the call without argument does. -/
theorem InitFlowControl_some (nyb : Nat → Nat × Nat) (f : PDU) (m : can.Message)
    (p : List Nat) (hraw : f.Raw = some m) (hlen : p.length = 3) :
    InitFlowControl nyb f (some p) =
      match GetType nyb { f with Raw := some { m with Payload := p } } with
      | .error x => .error x
      | .ok (f1, _, some e) => .ok (f1, some e)
      | .ok (f1, _, none) => InitFlowControl nyb f1 none := by
  simp only [InitFlowControl, hlen, if_true, deref, hraw, bind, Except.bind, pure,
    Except.pure]
  cases GetType nyb { f with Raw := some { m with Payload := p } } with
  | error x => rfl
  | ok r =>
    obtain ⟨f1, t, e⟩ := r
    cases e <;> rfl

/-- A parser called with a payload argument that it stores leaves `Raw` referring to the
message with that payload and its other fields as they were. -/
theorem stored_arg_raw (nyb : Nat → Nat × Nat) (f f' : PDU) (m : can.Message)
    (p : List Nat) (e : Option String) (P : PDU → Except Panic (PDU × Option String))
    (hP : ∀ g g' e', P g = .ok (g', e') → g'.Raw = g.Raw)
    (h : (match GetType nyb { f with Raw := some { m with Payload := p } } with
      | Except.error x => Except.error x
      | Except.ok (f1, _, some e) => Except.ok (f1, some e)
      | Except.ok (f1, _, none) => P f1) = Except.ok (f', e)) :
    f'.Raw = some { m with Payload := p } := by
  cases hg : GetType nyb { f with Raw := some { m with Payload := p } } with
  | error x => simp [hg] at h
  | ok r =>
    obtain ⟨f1, t, e1⟩ := r
    obtain ⟨t', ht⟩ := GetType_frame nyb _ f1 t e1 hg
    have hraw1 : f1.Raw = some { m with Payload := p } := by rw [ht]
    cases e1 with
    | some e1 =>
      simp only [hg, Except.ok.injEq, Prod.mk.injEq] at h
      rw [← h.1]
      exact hraw1
    | none =>
      simp only [hg] at h
      rw [hP f1 f' e h]
      exact hraw1

/-- C15 as the code has it, counter to the claim: called with a payload argument,
`InitSingleFrame`, `InitFirstFrame` and `InitFlowControl` (argument of 3 bytes) assign
it to `f.Raw.Payload` (lines 104, 56, 152).  With `GetNybble`, on a PDU whose message
holds `[0x00, 0x06, 1, 2, 3, 4, 5, 6]`, `InitSingleFrame([0x00, 0x06, 9, 9, 9, 9, 9, 9])`
returns with the message's `Payload` replaced by the argument, and on a PDU whose
message holds `[0x13, 0x08, 0x7F]`, `InitFlowControl([0x23, 0x10, 0x0A])` does the
same. -/
theorem payload_argument_counterexample :
    InitSingleFrame GetNybble (pduOf (stdMsg [0x00, 0x06, 1, 2, 3, 4, 5, 6]))
        (some [0x00, 0x06, 9, 9, 9, 9, 9, 9]) =
      .ok ({ pduOf { stdMsg [0x00, 0x06, 1, 2, 3, 4, 5, 6] with
                      Payload := [0x00, 0x06, 9, 9, 9, 9, 9, 9] } with
              Length := 6, Data := [9, 9, 9, 9, 9, 9] }, none) ∧
    ([0x00, 0x06, 9, 9, 9, 9, 9, 9] : List Nat) ≠ [0x00, 0x06, 1, 2, 3, 4, 5, 6] ∧
    InitFlowControl GetNybble (pduOf (stdMsg [0x13, 0x08, 0x7F]))
        (some [0x23, 0x10, 0x0A]) =
      .ok ({ pduOf { stdMsg [0x13, 0x08, 0x7F] with Payload := [0x23, 0x10, 0x0A] } with
              Type_ := FC, Flag := 2, BlockSize := 16, SepTime := 10 * Millisecond },
        none) ∧
    ([0x23, 0x10, 0x0A] : List Nat) ≠ [0x13, 0x08, 0x7F] :=
  ⟨rfl, by decide, rfl, by decide⟩

/-- C15 amended: `Init`(m) leaves `Raw` referring to a message equal to m in `ID`,
`DLC`, `IsExtended`, `IsFD` and `Payload`, on success and on failure; `GetType`,
`GetFlag`, `GetSTMin`, and `InitSingleFrame`, `InitFirstFrame`, `InitFlowControl`
called without a payload argument, change no field of the message `Raw` refers to.
Called with a payload argument b, `InitSingleFrame` and `InitFirstFrame`, and
`InitFlowControl` when len(b) = 3, replace the message's `Payload` by b and leave its
`ID`, `DLC`, `IsExtended` and `IsFD` as they were; `InitFlowControl` with len(b) other
than 3 changes no field of the message. -/
theorem message_fields_kept (nyb : Nat → Nat × Nat)
    (parse : List Nat → Int → Except Panic (Int × Option String)) :
    (∀ f f' m e, Init nyb parse f m = .ok (f', e) → f'.Raw = some m) ∧
    (∀ f f' t e, GetType nyb f = .ok (f', t, e) → f'.Raw = f.Raw) ∧
    (∀ f f' t e, GetFlag nyb f = .ok (f', t, e) → f'.Raw = f.Raw) ∧
    (∀ f f' t e, GetSTMin f = .ok (f', t, e) → f'.Raw = f.Raw) ∧
    (∀ f f' e, InitSingleFrame nyb f none = .ok (f', e) → f'.Raw = f.Raw) ∧
    (∀ f f' e, InitFirstFrame nyb parse f none = .ok (f', e) → f'.Raw = f.Raw) ∧
    (∀ f f' e, InitFlowControl nyb f none = .ok (f', e) → f'.Raw = f.Raw) ∧
    (∀ f f' e b, InitSingleFrame nyb f (some b) = .ok (f', e) →
      ∃ m, f.Raw = some m ∧ f'.Raw = some { m with Payload := b }) ∧
    (∀ f f' e b, InitFirstFrame nyb parse f (some b) = .ok (f', e) →
      ∃ m, f.Raw = some m ∧ f'.Raw = some { m with Payload := b }) ∧
    (∀ f f' e b, InitFlowControl nyb f (some b) = .ok (f', e) →
      (b.length = 3 → ∃ m, f.Raw = some m ∧ f'.Raw = some { m with Payload := b }) ∧
      (b.length ≠ 3 → f'.Raw = f.Raw)) := by
  refine ⟨?_, ?_, ?_, ?_, ?_, ?_, ?_, ?_, ?_, ?_⟩
  · intro f f' m e h
    obtain ⟨_, _, _, hr, _⟩ := Init_cases nyb parse f f' m e h
    exact hr
  · intro f f' t e h
    obtain ⟨t', ht⟩ := GetType_frame nyb f f' t e h
    rw [ht]
  · intro f f' t e h
    exact GetFlag_raw nyb f f' t e h
  · intro f f' t e h
    exact GetSTMin_raw f f' t e h
  · intro f f' e h
    exact InitSingleFrame_none_raw nyb f f' e h
  · intro f f' e h
    exact InitFirstFrame_none_raw nyb parse f f' e h
  · intro f f' e h
    exact InitFlowControl_none_raw nyb f f' e h
  · intro f f' e b h
    cases hraw : f.Raw with
    | none => simp [InitSingleFrame, deref, hraw, bind, Except.bind] at h
    | some m =>
      rw [InitSingleFrame_some nyb f m b hraw] at h
      exact ⟨m, rfl, stored_arg_raw nyb f f' m b e (fun g => InitSingleFrame nyb g none)
        (fun g g' e' => InitSingleFrame_none_raw nyb g g' e') h⟩
  · intro f f' e b h
    cases hraw : f.Raw with
    | none => simp [InitFirstFrame, deref, hraw, bind, Except.bind] at h
    | some m =>
      rw [InitFirstFrame_some nyb parse f m b hraw] at h
      exact ⟨m, rfl, stored_arg_raw nyb f f' m b e (fun g => InitFirstFrame nyb parse g none)
        (fun g g' e' => InitFirstFrame_none_raw nyb parse g g' e') h⟩
  · intro f f' e b h
    refine ⟨fun hlen => ?_, fun hlen => ?_⟩
    · cases hraw : f.Raw with
      | none => simp [InitFlowControl, hlen, deref, hraw, bind, Except.bind] at h
      | some m =>
        rw [InitFlowControl_some nyb f m b hraw hlen] at h
        exact ⟨m, rfl, stored_arg_raw nyb f f' m b e (fun g => InitFlowControl nyb g none)
          (fun g g' e' => InitFlowControl_none_raw nyb g g' e') h⟩
    · have hh : InitFlowControl nyb f (some b) = InitFlowControl nyb f none := by
        simp [InitFlowControl, hlen]
      rw [hh] at h
      exact InitFlowControl_none_raw nyb f f' e h

/-- C15 amended, at concrete calls with `GetNybble`: `Init` keeps the message, and
`InitSingleFrame` with a payload argument replaces the payload only. -/
theorem message_fields_kept_witness :
    Init GetNybble (parseFFLength GetNybble) freshPDU
        (extMsg [0x00, 0x06, 1, 2, 3, 4, 5, 6]) =
      .ok ({ pduOf (extMsg [0x00, 0x06, 1, 2, 3, 4, 5, 6]) with
              Type_ := SF, Length := 6, Data := [1, 2, 3, 4, 5, 6] }, none) ∧
    ({ pduOf (extMsg [0x00, 0x06, 1, 2, 3, 4, 5, 6]) with
        Type_ := SF, Length := 6, Data := [1, 2, 3, 4, 5, 6] } : PDU).Raw =
      some (extMsg [0x00, 0x06, 1, 2, 3, 4, 5, 6]) ∧
    ∃ m, (pduOf (stdMsg [0x00, 0x06, 1, 2, 3, 4, 5, 6])).Raw = some m ∧
      ({ pduOf { stdMsg [0x00, 0x06, 1, 2, 3, 4, 5, 6] with
                  Payload := [0x00, 0x06, 9, 9, 9, 9, 9, 9] } with
          Length := 6, Data := [9, 9, 9, 9, 9, 9] } : PDU).Raw =
        some { m with Payload := [0x00, 0x06, 9, 9, 9, 9, 9, 9] } :=
  ⟨rfl,
   (message_fields_kept GetNybble (parseFFLength GetNybble)).1 freshPDU _
     (extMsg [0x00, 0x06, 1, 2, 3, 4, 5, 6]) none rfl,
   (message_fields_kept GetNybble (parseFFLength GetNybble)).2.2.2.2.2.2.2.1
     (pduOf (stdMsg [0x00, 0x06, 1, 2, 3, 4, 5, 6])) _ none
     [0x00, 0x06, 9, 9, 9, 9, 9, 9] rfl⟩

/-- C11 as the modelled parser has it, counter to the claim: with `GetNybble`, byte 0 =
0x32 has low nibble 2, on which `GetType` classifies it as a Consecutive Frame, and
other nibble 3.  `Init` returns no error with `Data` = `payload[1:]`, and `Index` is 2,
the low nibble that section 4.5 names, not the other nibble 3. -/
theorem Init_consecutive_counterexample :
    Init GetNybble (parseFFLength GetNybble) freshPDU (stdMsg [0x32, 0xA1, 0xA2, 0xA3]) =
      .ok ({ pduOf (stdMsg [0x32, 0xA1, 0xA2, 0xA3]) with
              Type_ := CF, Index := 2, Data := [0xA1, 0xA2, 0xA3] }, none) ∧
    (GetNybble 0x32).2 = 2 ∧ (GetNybble 0x32).1 = 3 ∧
    ¬ (∃ f' e, Init GetNybble (parseFFLength GetNybble) freshPDU
          (stdMsg [0x32, 0xA1, 0xA2, 0xA3]) = .ok (f', e) ∧
        f'.Index = (((GetNybble 0x32).1 : Nat) : Int)) := by
  refine ⟨rfl, by decide, by decide, ?_⟩
  rintro ⟨f', e, h, hi⟩
  have h2 : Init GetNybble (parseFFLength GetNybble) freshPDU
      (stdMsg [0x32, 0xA1, 0xA2, 0xA3]) =
      .ok ({ pduOf (stdMsg [0x32, 0xA1, 0xA2, 0xA3]) with
              Type_ := CF, Index := 2, Data := [0xA1, 0xA2, 0xA3] }, none) := rfl
  rw [h2] at h
  injection h with h
  injection h with h _
  subst h
  revert hi
  decide

/-- C11 amended: on a message with a non-empty payload whose type nibble
`bits.GetNybble(payload[0])[1]` is 2 (Consecutive Frame), `Init` returns no error,
`Type` is `CF`, `Data` is `payload[1:]`, the payload after its first byte, and `Index`
is the low nibble of byte 0 as section 4.5 words it: index 1 of the pair, the nibble
`GetType` has classified on, so `Index` is 2 (within 0..15) and the other nibble is
not read. -/
theorem Init_consecutive (nyb : Nat → Nat × Nat)
    (parse : List Nat → Int → Except Panic (Int × Option String))
    (f : PDU) (m : can.Message) (b0 : Nat) (rest : List Nat) (hp : m.Payload = b0 :: rest)
    (ht : (nyb b0).2 = 2) :
    Init nyb parse f m =
      .ok ({ f with Raw := some m, Type_ := CF, Index := ((nyb b0).2 : Int), Data := rest },
        none) ∧
    rest = m.Payload.drop 1 ∧
    (((nyb b0).2 : Nat) : Int) = 2 ∧
    ((0 : Int) ≤ (((nyb b0).2 : Nat) : Int) ∧ (((nyb b0).2 : Nat) : Int) ≤ 15) := by
  refine ⟨?_, by simp [hp], by omega, by omega⟩
  rw [Init_eq nyb parse f m b0 rest hp]
  simp [ht, InitContinuationFrame, deref, index, sliceFrom, hp, bind, Except.bind, pure,
    Except.pure]

/-- C11 amended, at concrete frames with `GetNybble`: bytes 0x32 and 0xF2 both have low
nibble 2; `Index` is 2 for both and `Data` starts at offset 1. -/
theorem Init_consecutive_witness :
    Init GetNybble (parseFFLength GetNybble) freshPDU
        (stdMsg [0x32, 0xA1, 0xA2, 0xA3]) =
      .ok ({ pduOf (stdMsg [0x32, 0xA1, 0xA2, 0xA3]) with
              Type_ := CF, Index := (((GetNybble 0x32).2 : Nat) : Int),
              Data := [0xA1, 0xA2, 0xA3] }, none) ∧
    Init GetNybble (parseFFLength GetNybble) freshPDU (stdMsg [0xF2, 0xB1]) =
      .ok ({ pduOf (stdMsg [0xF2, 0xB1]) with Type_ := CF, Index := 2, Data := [0xB1] },
        none) :=
  ⟨(Init_consecutive GetNybble (parseFFLength GetNybble) freshPDU
      (stdMsg [0x32, 0xA1, 0xA2, 0xA3]) 0x32 [0xA1, 0xA2, 0xA3] rfl (by decide)).1,
   (Init_consecutive GetNybble (parseFFLength GetNybble) freshPDU
      (stdMsg [0xF2, 0xB1]) 0xF2 [0xB1] rfl (by decide)).1⟩

/-- C7 as the code has it, counter to the claim: the payload `[0x04, 6, 1, 2, 3, 4, 5, 6]`
has length nibble 0 (with `GetNybble`), 8 bytes, and byte 1 = 6, which meets the
three tests (6 ≥ 6, not 7, 6 ≤ 8 - 2) under standard addressing; given as the payload
argument, `InitSingleFrame` stores it, `GetType` on line 105 refuses its type nibble
4, and the call returns that error. -/
theorem InitSingleFrame_escape_form_counterexample :
    InitSingleFrame GetNybble (pduOf (stdMsg [0x00, 0x06, 1, 2, 3, 4, 5, 6]))
        (some [0x04, 6, 1, 2, 3, 4, 5, 6]) =
      .ok ({ pduOf { stdMsg [0x00, 0x06, 1, 2, 3, 4, 5, 6] with
                      Payload := [0x04, 6, 1, 2, 3, 4, 5, 6] } with Type_ := -1 },
        some "Invalid ISOTP type") ∧
    (GetNybble 0x04).1 = 0 ∧ (GetNybble 0x04).2 = 4 ∧
    (6 ≤ 6 ∧ ¬ (6 = 7 ∧ (stdMsg [0x00, 0x06, 1, 2, 3, 4, 5, 6]).IsExtended = false) ∧
      ((6 : Nat) : Int) ≤ ((([0x04, 6, 1, 2, 3, 4, 5, 6] : List Nat).length : Nat) : Int) - 2) ∧
    ¬ (∃ f', InitSingleFrame GetNybble (pduOf (stdMsg [0x00, 0x06, 1, 2, 3, 4, 5, 6]))
        (some [0x04, 6, 1, 2, 3, 4, 5, 6]) = .ok (f', none)) := by
  refine ⟨rfl, by decide, by decide, ⟨by decide, by decide, by decide⟩, ?_⟩
  rintro ⟨f', h⟩
  have h2 : InitSingleFrame GetNybble (pduOf (stdMsg [0x00, 0x06, 1, 2, 3, 4, 5, 6]))
      (some [0x04, 6, 1, 2, 3, 4, 5, 6]) =
      .ok ({ pduOf { stdMsg [0x00, 0x06, 1, 2, 3, 4, 5, 6] with
                      Payload := [0x04, 6, 1, 2, 3, 4, 5, 6] } with Type_ := -1 },
        some "Invalid ISOTP type") := rfl
  rw [h2] at h
  injection h with h
  injection h with _ h
  cases h

/-- C7 amended: Single Frame escape form.  The payload is the one the call decodes: the
message's when `InitSingleFrame` is called without argument, the argument when it has
one.  Its length nibble `bits.GetNybble(payload[0])[0]` is zero.  Called with the
payload as argument and a type nibble above 3, `InitSingleFrame` returns the
classifier's error.  Called without argument, or with a type nibble of at most 3, it
returns an error when the payload has one byte only; with two bytes or more and v =
byte 1 it returns, and it returns no error if and only if 6 ≤ v, not (v = 7 under
non-extended addressing), and v ≤ payload size - 2; on success `Length` = v. -/
theorem InitSingleFrame_escape_form (nyb : Nat → Nat × Nat) (f : PDU) (m : can.Message)
    (b : Option (List Nat)) (b0 : Nat) (rest : List Nat) (hraw : f.Raw = some m)
    (hp : b.getD m.Payload = b0 :: rest) (hn : (nyb b0).1 = 0) :
    (b ≠ none → 3 < (nyb b0).2 →
      InitSingleFrame nyb f b =
        .ok ({ f with Raw := some { m with Payload := b0 :: rest }, Type_ := -1 },
          some "Invalid ISOTP type")) ∧
    (b = none ∨ (nyb b0).2 ≤ 3 →
      (rest = [] → ∃ f' e, InitSingleFrame nyb f b = .ok (f', some e)) ∧
      (∀ v tl, rest = v :: tl →
        ((∃ f', InitSingleFrame nyb f b = .ok (f', none)) ↔
          (6 ≤ v ∧ ¬ (v = 7 ∧ m.IsExtended = false) ∧
            (v : Int) ≤ (((b0 :: rest).length : Nat) : Int) - 2)) ∧
        (∃ f' e, InitSingleFrame nyb f b = .ok (f', e)) ∧
        (∀ f', InitSingleFrame nyb f b = .ok (f', none) → f'.Length = (v : Int)))) := by
  cases b with
  | none =>
    simp only [Option.getD_none] at hp
    refine ⟨fun h => absurd rfl h, fun _ => ?_⟩
    have key := InitSingleFrame_none_escape nyb f m b0 rest hraw hp hn
    rw [hp] at key
    exact key
  | some p =>
    simp only [Option.getD_some] at hp
    subst hp
    have hT := GetType_eq nyb { f with Raw := some { m with Payload := b0 :: rest } }
      { m with Payload := b0 :: rest } b0 rest rfl rfl
    have hS := InitSingleFrame_some nyb f m (b0 :: rest) hraw
    refine ⟨fun _ h3 => ?_, fun h => ?_⟩
    · rw [if_pos h3] at hT
      rw [hS, hT]
    · have h3 : ¬ 3 < (nyb b0).2 := by
        rcases h with h | h
        · cases h
        · omega
      rw [if_neg h3] at hT
      rw [hT] at hS
      simp only at hS
      rw [hS]
      exact InitSingleFrame_none_escape nyb
        { f with Raw := some { m with Payload := b0 :: rest }, Type_ := ((nyb b0).2 : Int) }
        { m with Payload := b0 :: rest } b0 rest rfl rfl hn

/-- C7 amended, at concrete payloads with `GetNybble` (standard addressing, length nibble
0): without argument `[0x00]` is an error, `[0x00, 0x06, 1, 2, 3, 4, 5, 6]` is accepted
with `Length` 6, `[0x00, 0x07, ...]` and `[0x00, 0x05, ...]` are errors; given as the
argument, `[0x03, 0x06, 1, 2, 3, 4, 5, 6]` (type nibble 3) is accepted with `Length` 6. -/
theorem InitSingleFrame_escape_form_witness :
    (∃ f' e, InitSingleFrame GetNybble (pduOf (stdMsg [0x00])) none = .ok (f', some e)) ∧
    ((∃ f', InitSingleFrame GetNybble (pduOf (stdMsg [0x00, 0x06, 1, 2, 3, 4, 5, 6])) none
        = .ok (f', none)) ↔
      (6 ≤ 6 ∧ ¬ (6 = 7 ∧ (stdMsg [0x00, 0x06, 1, 2, 3, 4, 5, 6]).IsExtended = false) ∧
        ((6 : Nat) : Int) ≤
          ((([0x00, 0x06, 1, 2, 3, 4, 5, 6] : List Nat).length : Nat) : Int) - 2)) ∧
    InitSingleFrame GetNybble (pduOf (stdMsg [0x00, 0x06, 1, 2, 3, 4, 5, 6])) none =
      .ok ({ pduOf (stdMsg [0x00, 0x06, 1, 2, 3, 4, 5, 6]) with
              Length := 6, Data := [1, 2, 3, 4, 5, 6] }, none) ∧
    InitSingleFrame GetNybble (pduOf (stdMsg [0x00, 0x07, 1, 2, 3, 4, 5, 6, 7])) none =
      .ok ({ pduOf (stdMsg [0x00, 0x07, 1, 2, 3, 4, 5, 6, 7]) with Length := 7 },
        some "invalid length for non-extended frame") ∧
    InitSingleFrame GetNybble (pduOf (stdMsg [0x00, 0x05, 1, 2, 3, 4, 5])) none =
      .ok ({ pduOf (stdMsg [0x00, 0x05, 1, 2, 3, 4, 5]) with Length := 5 },
        some "invalid extended FF length") ∧
    InitSingleFrame GetNybble (pduOf (stdMsg [0x00]))
        (some [0x03, 0x06, 1, 2, 3, 4, 5, 6]) =
      .ok ({ pduOf { stdMsg [0x00] with Payload := [0x03, 0x06, 1, 2, 3, 4, 5, 6] } with
              Type_ := FC, Length := 6, Data := [1, 2, 3, 4, 5, 6] }, none) ∧
    (∀ f', InitSingleFrame GetNybble (pduOf (stdMsg [0x00]))
        (some [0x03, 0x06, 1, 2, 3, 4, 5, 6]) = .ok (f', none) → f'.Length = ((6 : Nat) : Int)) :=
  ⟨((InitSingleFrame_escape_form GetNybble (pduOf (stdMsg [0x00])) (stdMsg [0x00]) none
      0x00 [] rfl rfl (by decide)).2 (Or.inl rfl)).1 rfl,
   (((InitSingleFrame_escape_form GetNybble (pduOf (stdMsg [0x00, 0x06, 1, 2, 3, 4, 5, 6]))
      (stdMsg [0x00, 0x06, 1, 2, 3, 4, 5, 6]) none 0x00 [0x06, 1, 2, 3, 4, 5, 6]
      rfl rfl (by decide)).2 (Or.inl rfl)).2 0x06 [1, 2, 3, 4, 5, 6] rfl).1,
   rfl, rfl, rfl, rfl,
   (((InitSingleFrame_escape_form GetNybble (pduOf (stdMsg [0x00])) (stdMsg [0x00])
      (some [0x03, 0x06, 1, 2, 3, 4, 5, 6]) 0x03 [0x06, 1, 2, 3, 4, 5, 6]
      rfl rfl (by decide)).2 (Or.inr (by decide))).2 0x06 [1, 2, 3, 4, 5, 6] rfl).2.2⟩

/-- C8: Single Frame short form rejection.  The payload is the one the call decodes:
the message's when `InitSingleFrame` is called without argument, the argument when it
has one.  When its length nibble n = `bits.GetNybble(payload[0])[0]` is non-zero and
n > 7, or n > payload size - 1, or n = 7 under extended addressing, `InitSingleFrame`
returns an error; `Length` is then n (unless the call had the payload as argument and
stopped at the classifier's error), and without argument no other field has
changed. -/
theorem InitSingleFrame_short_reject (nyb : Nat → Nat × Nat) (f : PDU) (m : can.Message)
    (b : Option (List Nat)) (b0 : Nat) (rest : List Nat) (hraw : f.Raw = some m)
    (hp : b.getD m.Payload = b0 :: rest) (hn : (nyb b0).1 ≠ 0)
    (hbad : 7 < (nyb b0).1 ∨
      (((b0 :: rest).length : Nat) : Int) - 1 < ((nyb b0).1 : Int) ∨
      ((nyb b0).1 = 7 ∧ m.IsExtended = true)) :
    ∃ f' e, InitSingleFrame nyb f b = .ok (f', some e) ∧
      (b = none → f' = { f with Length := ((nyb b0).1 : Int) }) ∧
      (b = none ∨ (nyb b0).2 ≤ 3 → f'.Length = ((nyb b0).1 : Int)) := by
  cases b with
  | none =>
    simp only [Option.getD_none] at hp
    obtain ⟨e, he⟩ := InitSingleFrame_none_short_reject nyb f m b0 rest hraw hp hn
      (by rw [hp]; exact hbad)
    exact ⟨_, e, he, fun _ => rfl, fun _ => rfl⟩
  | some p =>
    simp only [Option.getD_some] at hp
    subst hp
    have hT := GetType_eq nyb { f with Raw := some { m with Payload := b0 :: rest } }
      { m with Payload := b0 :: rest } b0 rest rfl rfl
    have hS := InitSingleFrame_some nyb f m (b0 :: rest) hraw
    by_cases h3 : 3 < (nyb b0).2
    · rw [if_pos h3] at hT
      rw [hT] at hS
      refine ⟨_, _, hS, (fun h => by cases h), fun h => ?_⟩
      rcases h with h | h
      · cases h
      · omega
    · rw [if_neg h3] at hT
      rw [hT] at hS
      simp only at hS
      obtain ⟨e, he⟩ := InitSingleFrame_none_short_reject nyb
        { f with Raw := some { m with Payload := b0 :: rest }, Type_ := ((nyb b0).2 : Int) }
        { m with Payload := b0 :: rest } b0 rest rfl rfl hn hbad
      exact ⟨_, e, hS.trans he, (fun h => by cases h), fun _ => rfl⟩

/-- C8 at concrete payloads with `GetNybble`.  Without argument: nibble 8 (above 7),
nibble 5 on a 3-byte payload (above size - 1), and nibble 7 under extended
addressing.  With the payload as argument: nibble 8 with type nibble 0 (the length
error) and nibble 8 with type nibble 4 (the classifier's error). -/
theorem InitSingleFrame_short_reject_witness :
    InitSingleFrame GetNybble (pduOf (stdMsg [0x80, 1, 2, 3, 4, 5, 6, 7])) none =
      .ok ({ pduOf (stdMsg [0x80, 1, 2, 3, 4, 5, 6, 7]) with Length := 8 },
        some "invalid SF Data Length") ∧
    InitSingleFrame GetNybble (pduOf (stdMsg [0x50, 1, 2])) none =
      .ok ({ pduOf (stdMsg [0x50, 1, 2]) with Length := 5 },
        some "invalid SF Data Length") ∧
    InitSingleFrame GetNybble (pduOf (extMsg [0x70, 1, 2, 3, 4, 5, 6, 7])) none =
      .ok ({ pduOf (extMsg [0x70, 1, 2, 3, 4, 5, 6, 7]) with Length := 7 },
        some "invalid length for extended frame") ∧
    InitSingleFrame GetNybble (pduOf (stdMsg [0x00])) (some [0x80, 1, 2, 3, 4, 5, 6, 7]) =
      .ok ({ pduOf { stdMsg [0x00] with Payload := [0x80, 1, 2, 3, 4, 5, 6, 7] } with
              Length := 8 }, some "invalid SF Data Length") ∧
    InitSingleFrame GetNybble (pduOf (stdMsg [0x00])) (some [0x84, 1, 2, 3, 4, 5, 6, 7]) =
      .ok ({ pduOf { stdMsg [0x00] with Payload := [0x84, 1, 2, 3, 4, 5, 6, 7] } with
              Type_ := -1 }, some "Invalid ISOTP type") ∧
    (∃ f' e, InitSingleFrame GetNybble (pduOf (extMsg [0x70, 1, 2, 3, 4, 5, 6, 7])) none =
        .ok (f', some e) ∧
      ((none : Option (List Nat)) = none →
        f' = { pduOf (extMsg [0x70, 1, 2, 3, 4, 5, 6, 7]) with
                Length := (((GetNybble 0x70).1 : Nat) : Int) }) ∧
      ((none : Option (List Nat)) = none ∨ (GetNybble 0x70).2 ≤ 3 →
        f'.Length = (((GetNybble 0x70).1 : Nat) : Int))) ∧
    (∃ f' e, InitSingleFrame GetNybble (pduOf (stdMsg [0x00]))
        (some [0x84, 1, 2, 3, 4, 5, 6, 7]) = .ok (f', some e)) :=
  ⟨rfl, rfl, rfl, rfl, rfl,
   InitSingleFrame_short_reject GetNybble (pduOf (extMsg [0x70, 1, 2, 3, 4, 5, 6, 7]))
     (extMsg [0x70, 1, 2, 3, 4, 5, 6, 7]) none 0x70 [1, 2, 3, 4, 5, 6, 7] rfl rfl (by decide)
     (Or.inr (Or.inr (by decide))),
   (InitSingleFrame_short_reject GetNybble (pduOf (stdMsg [0x00])) (stdMsg [0x00])
     (some [0x84, 1, 2, 3, 4, 5, 6, 7]) 0x84 [1, 2, 3, 4, 5, 6, 7] rfl rfl (by decide)
     (Or.inl (by decide))).imp (fun _ h => h.imp (fun _ h2 => h2.1))⟩

end isotp
